import Mathlib

/-!
# binance-api: transport payload and positional-array decoders

A shallow embedding of `client.go` (`client.do`) and of the two hand-written
decoders of `types.go` (`DepthElem.UnmarshalJSON`, `Klines.UnmarshalJSON`),
together with the pieces of the Go standard library they call
(`strings.Replace/Trim/Split`, `strconv.ParseInt`, `fmt` verbs, `url.Values`).

Go strings and byte slices are byte sequences; they are embedded as lists of
bytes, so inputs that are not valid UTF-8 are covered as well.
-/

namespace Binance

/-! ## Bytes and text -/

/-- A Go `string` or `[]byte`. -/
abbrev Bytes := List UInt8

/-- The bytes of an ASCII literal. -/
def ascii (s : String) : Bytes := s.toList.map (fun c => UInt8.ofNat c.toNat)

/-- The byte `"` (0x22). -/
def quoteByte : UInt8 := 34
/-- The byte `,` (0x2c). -/
def commaByte : UInt8 := 44
/-- The byte `[` (0x5b). -/
def lbracketByte : UInt8 := 91
/-- The byte `]` (0x5d). -/
def rbracketByte : UInt8 := 93
/-- The byte `&` (0x26). -/
def ampByte : UInt8 := 38
/-- The byte `=` (0x3d). -/
def eqByte : UInt8 := 61
/-- The byte `?` (0x3f). -/
def questionByte : UInt8 := 63

/-! ## `strings` -/

/-- Go `strings.Replace(s, old, new, -1)` for a one-byte `old`: every occurrence
of the byte is replaced by `new`. -/
def strings.Replace (s : Bytes) (old : UInt8) (new : Bytes) : Bytes :=
  s.flatMap (fun c => if c = old then new else [c])

/-- Go `strings.Trim(s, cutset)` for an ASCII cutset: all leading and all
trailing bytes that occur in `cutset` are removed. -/
def strings.Trim (s : Bytes) (cutset : Bytes) : Bytes :=
  (s.dropWhile (fun c => decide (c ∈ cutset))).rdropWhile (fun c => decide (c ∈ cutset))

/-- Go `strings.Split(s, sep)` for a one-byte separator: the substrings between
the separators; `n` separators give `n + 1` substrings, the empty string gives
one empty substring. -/
def strings.Split : Bytes → UInt8 → List Bytes
  | [], _ => [[]]
  | c :: cs, sep =>
    if c = sep then [] :: strings.Split cs sep
    else
      match strings.Split cs sep with
      | [] => [[c]]
      | t :: ts => (c :: t) :: ts

/-! ## `strconv` -/

/-- The digit loop of Go `strconv.ParseUint(s, 10, bitSize)`: every byte must be
a decimal digit and the running value may not exceed `maxVal = 2^bitSize - 1`
(Go detects this with its `cutoff` and wrap-around tests on `uint64`); `none`
stands for a non-nil `err`, syntax or range. -/
def strconv.parseUintLoop (maxVal : Nat) : Bytes → Nat → Option Nat
  | [], n => some n
  | c :: cs, n =>
    if 48 ≤ c.toNat ∧ c.toNat ≤ 57 then
      let n1 := n * 10 + (c.toNat - 48)
      if n1 > maxVal then none else strconv.parseUintLoop maxVal cs n1
    else none

/-- Go `strconv.ParseUint(s, 10, bitSize)`; `none` stands for a non-nil `err`. -/
def strconv.ParseUint (s : Bytes) (bitSize : Nat) : Option Nat :=
  match s with
  | [] => none
  | _ :: _ => strconv.parseUintLoop (2 ^ bitSize - 1) s 0

/-- Go `strconv.ParseInt(s, 10, bitSize)`: an optional sign, then
`ParseUint`, then the range test against `cutoff = 2^(bitSize-1)`; `none`
stands for a non-nil `err` (the callers only test `err != nil`). -/
def strconv.ParseInt (s : Bytes) (bitSize : Nat) : Option Int :=
  match s with
  | [] => none
  | c :: cs =>
    let neg := decide (c = 45)
    let rest := if c = 43 ∨ c = 45 then cs else s
    match strconv.ParseUint rest bitSize with
    | none => none
    | some un =>
      let cutoff := 2 ^ (bitSize - 1)
      if !neg && decide (un ≥ cutoff) then none
      else if neg && decide (un > cutoff) then none
      else some (if neg then - (un : Int) else (un : Int))

/-- Go conversion `uint64(u)` of an `int64`. -/
def uint64OfInt (u : Int) : Nat := (u % 2 ^ 64).toNat

/-! ## `fmt` -/

/-- Go `%v` of a `[]string`: the elements separated by blanks, in brackets. -/
def fmt.strings (tokens : List Bytes) : Bytes :=
  lbracketByte :: List.intercalate [32] tokens ++ [rbracketByte]

/-- The decimal digits of `n`, most significant first, prepended to `acc`;
`fuel` bounds the number of digits. -/
def fmt.natAux : Nat → Nat → Bytes → Bytes
  | 0, _, acc => acc
  | fuel + 1, n, acc =>
    let acc := UInt8.ofNat (48 + n % 10) :: acc
    if n / 10 = 0 then acc else fmt.natAux fuel (n / 10) acc

/-- Go `%d` of a non-negative integer. -/
def fmt.nat (n : Nat) : Bytes := fmt.natAux (n + 1) n []

/-- Go `%d` (and `%v`) of a signed integer. -/
def fmt.int (i : Int) : Bytes :=
  if i < 0 then 45 :: fmt.nat i.natAbs else fmt.nat i.natAbs

/-! ## Outcome of a method with a pointer receiver -/

/-- How a call of a method with an `error` result on a pointer receiver ends:
it returns, leaving the receiver as `target` and giving the Go error `err`
(`none` is `nil`), or it panics. A receiver is `none` for the nil pointer. -/
inductive Outcome (α : Type) where
  | returns (target : α) (err : Option Bytes)
  | panics
deriving DecidableEq, Repr

/-! ## `types.go`: `DepthElem` -/

/-- The struct `DepthElem`. -/
structure DepthElem where
  Quantity : Bytes
  Price : Bytes
deriving DecidableEq, Repr

/-- The zero value of `DepthElem`. -/
def DepthElem.zero : DepthElem := ⟨[], []⟩

/-- The tokens both decoders work on: quotes removed, outer brackets trimmed,
split on commas (`types.go` lines 124-126 and 172-174). -/
def tokensOf (data : Bytes) : List Bytes :=
  let s := strings.Replace data quoteByte []
  let s := strings.Trim s (ascii "[]")
  strings.Split s commaByte

/-- The method `(b *DepthElem) UnmarshalJSON(data []byte) error`. An index
expression `tokens[i]` out of range panics in Go. -/
def DepthElem.UnmarshalJSON (b : Option DepthElem) (data : Bytes) :
    Outcome (Option DepthElem) :=
  match b with
  | none => .returns none (some (ascii "UnmarshalJSON on nil pointer"))
  | some b =>
    if data.length = 0 then .returns (some b) none
    else
      let tokens := tokensOf data
      if tokens.length < 2 then
        .returns (some b)
          (some (ascii "at least two fields are expected but got: " ++ fmt.strings tokens))
      else
        match tokens[0]? with
        | none => .panics
        | some t0 =>
          let b := { b with Price := t0 }
          match tokens[1]? with
          | none => .panics
          | some t1 =>
            let b := { b with Quantity := t1 }
            .returns (some b) none

/-! ## `types.go`: `Klines` -/

/-- The struct `Klines`; `uint64` fields are naturals below `2^64`, `int` is a
64-bit signed integer. -/
structure Klines where
  OpenTime : Nat
  OpenPrice : Bytes
  High : Bytes
  Low : Bytes
  ClosePrice : Bytes
  Volume : Bytes
  CloseTime : Nat
  QuoteAssetVolume : Bytes
  Trades : Int
  TakerBuyBaseAssetVolume : Bytes
  TakerBuyQuoteAssetVolume : Bytes
deriving DecidableEq, Repr

/-- The zero value of `Klines`. -/
def Klines.zero : Klines := ⟨0, [], [], [], [], [], 0, [], 0, [], []⟩

/-- The method `(b *Klines) UnmarshalJSON(data []byte) error`, statement by
statement; the receiver is updated in place, so an error return keeps the
assignments made before it. -/
def Klines.UnmarshalJSON (b : Option Klines) (data : Bytes) : Outcome (Option Klines) :=
  match b with
  | none => .returns none (some (ascii "UnmarshalJSON on nil pointer"))
  | some b =>
    if data.length = 0 then .returns (some b) none
    else
      let tokens := tokensOf data
      if tokens.length < 11 then
        .returns (some b)
          (some (ascii "at least 11 fields are expected but got: " ++ fmt.strings tokens))
      else
        match tokens[0]? with
        | none => .panics
        | some t0 =>
        match strconv.ParseInt t0 64 with
        | none => .returns (some b) (some (ascii "failed to parse open time: " ++ t0))
        | some u =>
        let b := { b with OpenTime := uint64OfInt u }
        match tokens[1]? with
        | none => .panics
        | some t1 =>
        let b := { b with OpenPrice := t1 }
        match tokens[2]? with
        | none => .panics
        | some t2 =>
        let b := { b with High := t2 }
        match tokens[3]? with
        | none => .panics
        | some t3 =>
        let b := { b with Low := t3 }
        match tokens[4]? with
        | none => .panics
        | some t4 =>
        let b := { b with ClosePrice := t4 }
        match tokens[5]? with
        | none => .panics
        | some t5 =>
        let b := { b with Volume := t5 }
        match tokens[6]? with
        | none => .panics
        | some t6 =>
        match strconv.ParseInt t6 64 with
        | none => .returns (some b) (some (ascii "failed to parse close time: " ++ t6))
        | some u =>
        let b := { b with CloseTime := uint64OfInt u }
        match tokens[7]? with
        | none => .panics
        | some t7 =>
        let b := { b with QuoteAssetVolume := t7 }
        match tokens[8]? with
        | none => .panics
        | some t8 =>
        match strconv.ParseInt t8 32 with
        | none => .returns (some b) (some (ascii "failed to parse trades: " ++ t8))
        | some u =>
        let b := { b with Trades := u }
        match tokens[9]? with
        | none => .panics
        | some t9 =>
        let b := { b with TakerBuyBaseAssetVolume := t9 }
        match tokens[10]? with
        | none => .panics
        | some t10 =>
        let b := { b with TakerBuyQuoteAssetVolume := t10 }
        .returns (some b) none

/-! ## `net/url` and `go-querystring` -/

/-- Go string comparison `a <= b`: bytewise lexicographic, a proper initial
segment first (the order `sort.Strings` sorts by). -/
def bytesLe : Bytes → Bytes → Bool
  | [], _ => true
  | _ :: _, [] => false
  | a :: as, b :: bs => decide (a.toNat < b.toNat) || (decide (a.toNat = b.toNat) && bytesLe as bs)

/-- Go `url.shouldEscape(c, encodeQueryComponent)`: everything but letters,
digits and `-`, `_`, `.`, `~` is escaped. -/
def url.shouldEscape (c : UInt8) : Bool :=
  !(decide (97 ≤ c.toNat ∧ c.toNat ≤ 122) || decide (65 ≤ c.toNat ∧ c.toNat ≤ 90)
    || decide (48 ≤ c.toNat ∧ c.toNat ≤ 57)
    || decide (c = 45) || decide (c = 95) || decide (c = 46) || decide (c = 126))

/-- A hex digit from the given alphabet. -/
def hexDigit (alphabet : Bytes) (n : Nat) : UInt8 := alphabet.getD n 0

/-- Go `url.QueryEscape(s)`: a blank becomes `+`, every other escaped byte
becomes `%XX` in upper-case hex. -/
def url.QueryEscape (s : Bytes) : Bytes :=
  s.flatMap (fun c =>
    if url.shouldEscape c then
      if c = 32 then [43]
      else [37, hexDigit (ascii "0123456789ABCDEF") (c.toNat / 16),
        hexDigit (ascii "0123456789ABCDEF") (c.toNat % 16)]
    else [c])

/-- Go `url.Values`, a `map[string][]string`: each key occurs once. -/
abbrev url.Values := List (Bytes × List Bytes)

/-- Go `Values.Add(key, value)`: appends the value to the values of the key. -/
def url.Values.Add : url.Values → Bytes → Bytes → url.Values
  | [], key, value => [(key, [value])]
  | (k, vs) :: rest, key, value =>
    if k = key then (k, vs ++ [value]) :: rest
    else (k, vs) :: url.Values.Add rest key value

/-- The map lookup `v[key]`. -/
def url.Values.lookup : url.Values → Bytes → List Bytes
  | [], _ => []
  | (k, vs) :: rest, key => if k = key then vs else url.Values.lookup rest key

/-- One step of the string builder in `Values.Encode`: an ampersand unless the
buffer is empty, then `key=value`, both escaped. -/
def url.Values.writePair (buf : Bytes) (key value : Bytes) : Bytes :=
  (if buf.length > 0 then buf ++ [ampByte] else buf)
    ++ url.QueryEscape key ++ [eqByte] ++ url.QueryEscape value

/-- Go `Values.Encode()`: the keys are collected and sorted with
`sort.Strings`, then every value of every key is written in that order. -/
def url.Values.Encode (v : url.Values) : Bytes :=
  let keys := (v.map Prod.fst).insertionSort (fun a b => bytesLe a b = true)
  keys.foldl
    (fun buf k => (url.Values.lookup v k).foldl (fun buf value => url.Values.writePair buf k value) buf)
    []

/-- The value of a field of an options struct; the structs of `types.go` have
string, `int` and `uint64` fields. -/
inductive FieldValue where
  | str (s : Bytes)
  | int (i : Int)
  | uint (n : Nat)
deriving DecidableEq, Repr

/-- A field of an options struct: the name in its `url` tag, whether the tag
says `omitempty`, and its value. -/
structure Field where
  name : Bytes
  omitempty : Bool
  value : FieldValue
deriving DecidableEq, Repr

/-- The argument `data interface{}` of `client.do`: nil, a struct (or pointer
to one) with its fields in declaration order, or a value of another kind. -/
inductive Data where
  | nil
  | struct (fields : List Field)
  | other (kind : Bytes)
deriving DecidableEq, Repr

/-- `isEmptyValue` of go-querystring. -/
def query.isEmptyValue : FieldValue → Bool
  | .str s => s.length == 0
  | .int i => i == 0
  | .uint n => n == 0

/-- `valueString` of go-querystring: `fmt.Sprint` of the field. -/
def query.valueString : FieldValue → Bytes
  | .str s => s
  | .int i => fmt.int i
  | .uint n => fmt.nat n

/-- `query.Values(data)` of go-querystring: the fields are visited in
declaration order, an empty `omitempty` field is skipped, every other field is
added to the map. -/
def query.Values : Data → Except Bytes url.Values
  | .nil => .ok []
  | .struct fields =>
    .ok (fields.foldl
      (fun values f =>
        if f.omitempty && query.isEmptyValue f.value then values
        else url.Values.Add values f.name (query.valueString f.value))
      [])
  | .other kind => .error (ascii "query: Values() expects struct input. Got " ++ kind)

/-! ## `client.go` -/

/-- The constant `url`. -/
def url : Bytes := ascii "https://www.binance.com"

/-- The struct `client`, without its `*http.Client`, which is part of `World`. -/
structure client where
  apikey : Bytes
  secret : Bytes
  window : Int
deriving DecidableEq, Repr

/-- An `http.Request` as `client.do` builds it: `http.NewRequest` with a nil or
a string-reader body, then the `Header.Add` calls in order, the header names
spelled as in the source (Go stores them in canonical case). `http.NewRequest`
succeeds for the methods and endpoints this package passes (fixed method names,
constant paths, an escaped payload). -/
structure Request where
  method : Bytes
  url : Bytes
  body : Option Bytes
  header : List (Bytes × Bytes)
deriving DecidableEq, Repr

/-- An `http.Response` as far as `client.do` reads it: the status code and the
result of `ioutil.ReadAll(resp.Body)`. -/
structure Response where
  StatusCode : Int
  Body : Except Bytes Bytes

/-- What `client.do` takes from outside the program: the clock reading
`time.Now().UnixNano()`, the function HMAC-SHA256 of `crypto/hmac` (key, then
message), and the round trip `http.Client.Do`. -/
structure World where
  now : Int
  hmacSHA256 : Bytes → Bytes → Bytes
  Do : Request → Except Bytes Response

/-- Go `hex.EncodeToString`: two lower-case hex digits per byte. -/
def hex.EncodeToString (src : Bytes) : Bytes :=
  src.flatMap (fun c =>
    [hexDigit (ascii "0123456789abcdef") (c.toNat / 16),
      hexDigit (ascii "0123456789abcdef") (c.toNat % 16)])

/-- The payload of `client.do` (`client.go` lines 38-49). -/
def client.payload (c : client) (w : World) (values : url.Values) (sign : Bool) : Bytes :=
  let payload := url.Values.Encode values
  if sign then
    let payload := payload ++ ascii "&timestamp=" ++ fmt.int (w.now.tdiv (1000 * 1000))
      ++ ascii "&recvWindow=" ++ fmt.int c.window
    let mac := w.hmacSHA256 c.secret payload
    payload ++ ascii "&signature=" ++ hex.EncodeToString mac
  else payload

/-- The request `client.do` hands to `c.client.Do` (`client.go` lines 54-66). -/
def client.request (c : client) (w : World) (method endpoint : Bytes) (values : url.Values)
    (sign stream : Bool) : Request :=
  let payload := client.payload c w values sign
  let req : Request :=
    if method = ascii "GET" then
      { method := method, url := url ++ ascii "/" ++ endpoint ++ ascii "?" ++ payload,
        body := none, header := [] }
    else
      { method := method, url := url ++ ascii "/" ++ endpoint, body := some payload,
        header := [(ascii "Content-Type", ascii "application/x-www-form-urlencoded")] }
  let req : Request :=
    if sign || stream then
      { req with header := req.header ++ [(ascii "X-MBX-APIKEY", c.apikey)] }
    else req
  { req with header := req.header ++ [(ascii "Accept", ascii "application/json")] }

/-- The method `(c *client) do(method, endpoint, data, sign, stream)`: the
result is the response body or the error. -/
def client.do (c : client) (w : World) (method endpoint : Bytes) (data : Data)
    (sign stream : Bool) : Except Bytes Bytes :=
  match query.Values data with
  | .error err => .error err
  | .ok values =>
    match w.Do (client.request c w method endpoint values sign stream) with
    | .error err => .error err
    | .ok resp =>
      match resp.Body with
      | .error err => .error err
      | .ok response =>
        if resp.StatusCode ≠ 200 then
          .error (ascii "status " ++ fmt.int resp.StatusCode ++ ascii ": " ++ response)
        else .ok response

/-- The list of `(key, value)` pairs a map holds. -/
def url.Values.flat (v : url.Values) : List (Bytes × Bytes) :=
  v.flatMap (fun e => e.2.map (fun x => (e.1, x)))

/-- The pairs in the order `Encode` writes them. -/
def url.Values.pairs (v : url.Values) : List (Bytes × Bytes) :=
  ((v.map Prod.fst).insertionSort (fun a b => bytesLe a b = true)).flatMap
    (fun k => (url.Values.lookup v k).map (fun x => (k, x)))

/-- The parameters `query.Values` keeps, in the declaration order of the
fields: name and value text of every field that is not an empty `omitempty`
field. -/
def query.retained (fields : List Field) : List (Bytes × Bytes) :=
  (fields.filter (fun f => !(f.omitempty && query.isEmptyValue f.value))).map
    (fun f => (f.name, query.valueString f.value))

/-- One `key=value` segment of an encoded payload. -/
def url.segment (p : Bytes × Bytes) : Bytes :=
  url.QueryEscape p.1 ++ [eqByte] ++ url.QueryEscape p.2

/-- The payload the specification describes: the retained parameters
serialized in the declaration order of the fields. -/
def declaredOrderPayload (fields : List Field) : Bytes :=
  List.intercalate [ampByte] ((query.retained fields).map url.segment)

/-! ## Reading the error text of `Klines.UnmarshalJSON` -/

/-- Go `strings.HasPrefix(s, p)`. -/
def strings.HasPrefix : Bytes → Bytes → Bool
  | _, [] => true
  | [], _ :: _ => false
  | c :: cs, d :: ds => c = d && strings.HasPrefix cs ds

/-- The integer fields of a candle: token index, bit size passed to
`strconv.ParseInt`, and the name the error text gives the field
(`types.go` lines 179-199). -/
def klinesIntFields : List (Nat × Nat × Bytes) :=
  [(0, 64, ascii "open time"), (6, 64, ascii "close time"), (8, 32, ascii "trades")]

/-- The token index that an error text of `Klines.UnmarshalJSON` names, read
off the field name it starts with. -/
def klinesErrorIndex (e : Bytes) : Option Nat :=
  (klinesIntFields.find?
    (fun f => strings.HasPrefix e (ascii "failed to parse " ++ f.2.2 ++ ascii ": "))).map
    (fun f => f.1)

/-! ## Inputs of the decoders -/

/-- A token free of the four structural bytes: quote, comma, brackets. -/
def clean (t : Bytes) : Prop :=
  ∀ c ∈ t, c ≠ quoteByte ∧ c ≠ commaByte ∧ c ≠ lbracketByte ∧ c ≠ rbracketByte

instance (t : Bytes) : Decidable (clean t) := by unfold clean; infer_instance

/-- A token as it stands in an array: quoted or bare. -/
def renderToken (t : Bool × Bytes) : Bytes :=
  if t.1 then quoteByte :: t.2 ++ [quoteByte] else t.2

/-- A JSON array of tokens: comma-separated, in brackets. -/
def renderArray (ts : List (Bool × Bytes)) : Bytes :=
  lbracketByte :: List.intercalate [commaByte] (ts.map renderToken) ++ [rbracketByte]

/-- A non-empty string of decimal digits. -/
def isDecimal (t : Bytes) : Prop := t ≠ [] ∧ ∀ c ∈ t, 48 ≤ c.toNat ∧ c.toNat ≤ 57

instance (t : Bytes) : Decidable (isDecimal t) := by unfold isDecimal; infer_instance

/-- The number a string of decimal digits denotes, continuing from `n`. -/
def decimalFrom (n : Nat) (t : Bytes) : Nat :=
  t.foldl (fun n c => n * 10 + (c.toNat - 48)) n

/-- The number a string of decimal digits denotes. -/
def decimalValue (t : Bytes) : Nat := decimalFrom 0 t

/-! ## Concrete inputs used by the examples -/

/-- A client with the default receive window. -/
def exampleClient : client := { apikey := ascii "key", secret := ascii "secret", window := 5000 }

/-- A world whose server answers every request with the given status and body;
the clock reads `now`, the stand-in digest is two fixed bytes. -/
def exampleWorld (now : Int) (status : Int) (body : Bytes) : World :=
  { now := now, hmacSHA256 := fun _ _ => [171, 1],
    Do := fun _ => .ok { StatusCode := status, Body := .ok body } }

/-- The options of `TestBinanceClient_Ticker`: a `TickerOpts` with symbol LTCBTC. -/
def tickerOptsLTCBTC : List Field := [⟨ascii "symbol", false, .str (ascii "LTCBTC")⟩]

/-- The `NewOrderOpts` of `TestBinanceClient_Order`, fields in declaration order. -/
def newOrderOptsTest : List Field :=
  [⟨ascii "symbol", false, .str (ascii "NEOBTC")⟩, ⟨ascii "side", false, .str (ascii "SELL")⟩,
   ⟨ascii "type", false, .str (ascii "LIMIT")⟩, ⟨ascii "timeInForce", true, .str (ascii "GTC")⟩,
   ⟨ascii "quantity", false, .str (ascii "1")⟩, ⟨ascii "price", false, .str (ascii "0.1")⟩,
   ⟨ascii "newClientOrderId", true, .str []⟩, ⟨ascii "stopPrice", true, .str []⟩,
   ⟨ascii "icebergQty", true, .str []⟩]

/-! ## `binance.go`: construction -/

/-- The struct `BinanceClient`, without its websocket dialer. -/
structure BinanceClient where
  client : client
deriving DecidableEq, Repr

/-- The function `NewBinanceClient(apikey, secret)`. -/
def NewBinanceClient (apikey secret : Bytes) : BinanceClient :=
  { client := { window := 5000, apikey := apikey, secret := secret } }

/-- The function `NewBinanceClientWindow(apikey, secret, window)`: the client
pointer (`none` is nil) and the error. It takes no `World`: nothing is sent. -/
def NewBinanceClientWindow (apikey secret : Bytes) (window : Int) :
    Option BinanceClient × Option Bytes :=
  if window ≤ 0 then (none, some (ascii "window value is invalid"))
  else (some { client := { window := window, apikey := apikey, secret := secret } }, none)

/-! ## `types.go`: options and results of the order endpoints -/

/-- The struct `DepthOpts`. -/
structure DepthOpts where
  Symbol : Bytes
  Limit : Int
deriving DecidableEq, Repr

/-- The fields of `DepthOpts` with their `url` tags. -/
def DepthOpts.data (o : DepthOpts) : Data :=
  .struct [⟨ascii "symbol", false, .str o.Symbol⟩, ⟨ascii "limit", false, .int o.Limit⟩]

/-- The struct `Depth`. -/
structure Depth where
  LastUpdateID : Int
  Bids : List DepthElem
  Asks : List DepthElem
deriving DecidableEq, Repr

/-- The zero value of `Depth`. -/
def Depth.zero : Depth := ⟨0, [], []⟩

/-- The struct `QueryOrderOpts`. -/
structure QueryOrderOpts where
  Symbol : Bytes
  OrderID : Int
  OrigClientOrderId : Bytes
deriving DecidableEq, Repr

/-- The fields of `QueryOrderOpts` with their `url` tags. -/
def QueryOrderOpts.data (o : QueryOrderOpts) : Data :=
  .struct [⟨ascii "symbol", false, .str o.Symbol⟩, ⟨ascii "orderId", true, .int o.OrderID⟩,
    ⟨ascii "origClientOrderId", true, .str o.OrigClientOrderId⟩]

/-- The struct `QueryOrder`. -/
structure QueryOrder where
  Symbol : Bytes
  OrderID : Int
  ClientOrderID : Bytes
  Price : Bytes
  OrigQty : Bytes
  ExecutedQty : Bytes
  Status : Bytes
  TimeInForce : Bytes
  Type_ : Bytes
  Side : Bytes
  StopPrice : Bytes
  IcebergQty : Bytes
  Time : Nat
deriving DecidableEq, Repr

/-- The zero value of `QueryOrder`. -/
def QueryOrder.zero : QueryOrder := ⟨[], 0, [], [], [], [], [], [], [], [], [], [], 0⟩

/-- The struct `CancelOrderOpts`. -/
structure CancelOrderOpts where
  Symbol : Bytes
  OrderID : Int
  OrigClientOrderId : Bytes
  NewClientOrderId : Bytes
deriving DecidableEq, Repr

/-- The fields of `CancelOrderOpts` with their `url` tags. -/
def CancelOrderOpts.data (o : CancelOrderOpts) : Data :=
  .struct [⟨ascii "symbol", false, .str o.Symbol⟩, ⟨ascii "orderId", false, .int o.OrderID⟩,
    ⟨ascii "origClientOrderId", true, .str o.OrigClientOrderId⟩,
    ⟨ascii "newClientOrderId", true, .str o.NewClientOrderId⟩]

/-- The struct `CancelOrder`. -/
structure CancelOrder where
  Symbol : Bytes
  OrderID : Int
  OrigClientOrderId : Bytes
  ClientOrderId : Bytes
deriving DecidableEq, Repr

/-- The zero value of `CancelOrder`. -/
def CancelOrder.zero : CancelOrder := ⟨[], 0, [], []⟩

/-- The struct `AllOrdersOpts`. -/
structure AllOrdersOpts where
  Symbol : Bytes
  OrderID : Int
  Limit : Int
deriving DecidableEq, Repr

/-- The fields of `AllOrdersOpts` with their `url` tags. -/
def AllOrdersOpts.data (o : AllOrdersOpts) : Data :=
  .struct [⟨ascii "symbol", false, .str o.Symbol⟩, ⟨ascii "orderId", false, .int o.OrderID⟩,
    ⟨ascii "limit", false, .int o.Limit⟩]

/-- The struct `TradesOpts`. -/
structure TradesOpts where
  Symbol : Bytes
  Limit : Int
  FromID : Int
deriving DecidableEq, Repr

/-- The fields of `TradesOpts` with their `url` tags. -/
def TradesOpts.data (o : TradesOpts) : Data :=
  .struct [⟨ascii "symbol", false, .str o.Symbol⟩, ⟨ascii "limit", false, .int o.Limit⟩,
    ⟨ascii "fromId", false, .int o.FromID⟩]

/-- The struct `Trades`. -/
structure Trades where
  ID : Int
  Price : Bytes
  Qty : Bytes
  Commission : Bytes
  CommissionAsset : Bytes
  Time : Nat
  Buyer : Bool
  Maker : Bool
  BestMatch : Bool
deriving DecidableEq, Repr

/-- The zero value of `Trades`. -/
def Trades.zero : Trades := ⟨0, [], [], [], [], 0, false, false, false⟩

/-! ## `binance.go`: endpoint methods

`json.Unmarshal` of `encoding/json` is passed to every method as `unmarshal`:
from the data and the target before the call to the target after the call and
the error. An options pointer is `none` when nil; where a method assigns to
`opts.Limit`, the options struct after the call is part of the result. -/

/-- The method `(b *BinanceClient) Depth(opts *DepthOpts) (*Depth, error)`. -/
def BinanceClient.Depth (b : BinanceClient) (w : World)
    (unmarshal : Bytes → Binance.Depth → Binance.Depth × Option Bytes)
    (opts : Option DepthOpts) :
    Option DepthOpts × Option Binance.Depth × Option Bytes :=
  match opts with
  | none => (none, none, some (ascii "opts is nil"))
  | some opts =>
    let opts := if opts.Limit = 0 ∨ opts.Limit > 100 then { opts with Limit := 100 } else opts
    match client.do b.client w (ascii "GET") (ascii "api/v1/depth") (DepthOpts.data opts)
        false false with
    | .error err => (some opts, none, some err)
    | .ok res =>
      let r := unmarshal res Depth.zero
      (some opts, some r.1, r.2)

/-- The method `(b *BinanceClient) QueryOrder(opts *QueryOrderOpts)
(*QueryOrder, error)`. -/
def BinanceClient.QueryOrder (b : BinanceClient) (w : World)
    (unmarshal : Bytes → Binance.QueryOrder → Binance.QueryOrder × Option Bytes)
    (opts : Option QueryOrderOpts) : Option Binance.QueryOrder × Option Bytes :=
  match opts with
  | none => (none, some (ascii "opts is nil"))
  | some opts =>
    if opts.OrderID < 0 ∧ opts.OrigClientOrderId = [] then
      (none, some (ascii "order id must be set"))
    else
      match client.do b.client w (ascii "GET") (ascii "api/v3/order") (QueryOrderOpts.data opts)
          true false with
      | .error err => (none, some err)
      | .ok res =>
        let r := unmarshal res QueryOrder.zero
        (some r.1, r.2)

/-- The method `(b *BinanceClient) CancelOrder(opts *CancelOrderOpts)
(*CancelOrder, error)`. -/
def BinanceClient.CancelOrder (b : BinanceClient) (w : World)
    (unmarshal : Bytes → Binance.CancelOrder → Binance.CancelOrder × Option Bytes)
    (opts : Option CancelOrderOpts) : Option Binance.CancelOrder × Option Bytes :=
  match opts with
  | none => (none, some (ascii "opts is nil"))
  | some opts =>
    if opts.OrderID < 0 ∨ (opts.OrigClientOrderId = [] ∧ opts.NewClientOrderId = []) then
      (none, some (ascii "order id must be set"))
    else
      match client.do b.client w (ascii "DELETE") (ascii "api/v3/order")
          (CancelOrderOpts.data opts) true false with
      | .error err => (none, some err)
      | .ok res =>
        let r := unmarshal res CancelOrder.zero
        (some r.1, r.2)

/-- The method `(b *BinanceClient) AllOrders(opts *AllOrdersOpts)
([]*QueryOrder, error)`. -/
def BinanceClient.AllOrders (b : BinanceClient) (w : World)
    (unmarshal : Bytes → List Binance.QueryOrder → List Binance.QueryOrder × Option Bytes)
    (opts : Option AllOrdersOpts) :
    Option AllOrdersOpts × Option (List Binance.QueryOrder) × Option Bytes :=
  match opts with
  | none => (none, none, some (ascii "opts is nil"))
  | some opts =>
    let opts := if opts.Limit = 0 then { opts with Limit := 500 } else opts
    match client.do b.client w (ascii "GET") (ascii "api/v3/allOrders")
        (AllOrdersOpts.data opts) true false with
    | .error err => (some opts, none, some err)
    | .ok res =>
      let r := unmarshal res []
      (some opts, some r.1, r.2)

/-- The method `(b *BinanceClient) Trades(opts *TradesOpts) (*Trades, error)`. -/
def BinanceClient.Trades (b : BinanceClient) (w : World)
    (unmarshal : Bytes → Binance.Trades → Binance.Trades × Option Bytes)
    (opts : Option TradesOpts) :
    Option TradesOpts × Option Binance.Trades × Option Bytes :=
  match opts with
  | none => (none, none, some (ascii "opts is nil"))
  | some opts =>
    let opts := if opts.Limit = 0 ∨ opts.Limit > 500 then { opts with Limit := 500 } else opts
    match client.do b.client w (ascii "GET") (ascii "api/v3/myTrades") (TradesOpts.data opts)
        true false with
    | .error err => (some opts, none, some err)
    | .ok res =>
      let r := unmarshal res Trades.zero
      (some opts, some r.1, r.2)

/-! ## `types_ws.go` -/

/-- The constant `UpdateTypeOutboundAccountInfo`. -/
def UpdateTypeOutboundAccountInfo : Bytes := ascii "outboundAccountInfo"

/-- The constant `UpdateTypeExecutionReport`. -/
def UpdateTypeExecutionReport : Bytes := ascii "executionReport"

/-- The struct `DepthUpdate`. -/
structure DepthUpdate where
  EventType : Bytes
  Time : Nat
  Symbol : Bytes
  UpdateID : Int
  Bids : List DepthElem
  Asks : List DepthElem
deriving DecidableEq, Repr

/-- The zero value of `DepthUpdate`. -/
def DepthUpdate.zero : DepthUpdate := ⟨[], 0, [], 0, [], []⟩

/-- An element of `AccountUpdate.Balances`; the slice holds pointers, `none`
is nil. -/
structure AccountBalance where
  Asset : Bytes
  Free : Bytes
  Locked : Bytes
deriving DecidableEq, Repr

/-- The struct `AccountUpdate`. -/
structure AccountUpdate where
  EventType : Bytes
  Time : Nat
  MakerCommission : Int
  TakerCommission : Int
  BuyerCommission : Int
  SellerCommission : Int
  CanTrade : Bool
  CanWithdraw : Bool
  CanDeposit : Bool
  Balances : List (Option AccountBalance)
deriving DecidableEq, Repr

/-- The zero value of `AccountUpdate`. -/
def AccountUpdate.zero : AccountUpdate := ⟨[], 0, 0, 0, 0, 0, false, false, false, []⟩

/-- The struct `OrderUpdate`. -/
structure OrderUpdate where
  EventType : Bytes
  Time : Nat
  Symbol : Bytes
  NewClientOrderID : Bytes
  Side : Bytes
  OrderType : Bytes
  TimeInForce : Bytes
  OrigQty : Bytes
  Price : Bytes
  ExecutionType : Bytes
  Status : Bytes
  Error : Bytes
  OrderID : Int
  OrderTime : Nat
  FilledQty : Bytes
  FilledPrice : Bytes
  TotalFilledQty : Bytes
  Commission : Bytes
  CommissionAsset : Bytes
  TradeTime : Nat
  TradeID : Int
  Maker : Bool
deriving DecidableEq, Repr

/-- The zero value of `OrderUpdate`. -/
def OrderUpdate.zero : OrderUpdate :=
  ⟨[], 0, [], [], [], [], [], [], [], [], [], [], 0, 0, [], [], [], [], [], 0, 0, false⟩

/-- The anonymous struct `msgType` of `AccountInfoWS.Read`: the event type and
the event time. -/
structure MsgType where
  EventType : Bytes
  Time : Nat
deriving DecidableEq, Repr

/-- The zero value of `MsgType`. -/
def MsgType.zero : MsgType := ⟨[], 0⟩

/-! ## `ws.go` -/

/-- The error of an operation on a closed connection. -/
def errClosed : Bytes := ascii "use of closed network connection"

/-- The error of a read when the peer has ended the stream. -/
def errEOF : Bytes := ascii "unexpected EOF"

/-- Modelled from the spec: the type `websocket.Conn` of gorilla/websocket,
whose source is not part of the repository, as the Stream Connection of the
specification: a state machine Open to Closed with Closed terminal. `incoming`
is what the network delivers to the reads to come, one frame or one failure per
read. -/
structure Conn where
  closed : Bool
  incoming : List (Except Bytes Bytes)

/-- Modelled from the spec: the method `ReadMessage` of `websocket.Conn`. A
read consumes exactly one frame; a read after close returns the error of a
closed connection. -/
def Conn.ReadMessage (c : Conn) : Conn × Except Bytes Bytes :=
  if c.closed then (c, .error errClosed)
  else
    match c.incoming with
    | [] => (c, .error errEOF)
    | m :: rest => ({ c with incoming := rest }, m)

/-- Modelled from the spec: the method `Close` of `websocket.Conn`. Closing
releases the socket; a second or later close returns the error of a closed
connection. -/
def Conn.Close (c : Conn) : Conn × Option Bytes :=
  if c.closed then (c, some errClosed) else ({ c with closed := true }, none)

/-- The struct `wsWrapper`; `conn` is a pointer, `none` is nil. -/
structure wsWrapper where
  conn : Option Conn

/-- How a call of a method of a stream wrapper ends: it returns, leaving the
wrapper as `wrapper` and giving `result`, or it panics (a nil `conn`). -/
inductive Call (ρ : Type) where
  | returns (wrapper : wsWrapper) (result : ρ)
  | panics

/-- The method `(w *wsWrapper) Close() error`. -/
def wsWrapper.Close (w : wsWrapper) : Call (Option Bytes) :=
  match w.conn with
  | none => .panics
  | some conn =>
    let r := conn.Close
    .returns { conn := some r.1 } r.2

/-- The method `(d *DepthWS) Read() (*DepthUpdate, error)`; `KlinesWS.Read` and
`TradesWS.Read` are the same text with their own update struct. `unmarshal` is
`json.Unmarshal` at a `*DepthUpdate`. -/
def DepthWS.Read (d : wsWrapper) (unmarshal : Bytes → DepthUpdate → DepthUpdate × Option Bytes) :
    Call (Option DepthUpdate × Option Bytes) :=
  match d.conn with
  | none => .panics
  | some conn =>
    let r := conn.ReadMessage
    match r.2 with
    | .error err => .returns { conn := some r.1 } (none, some err)
    | .ok data =>
      let u := unmarshal data DepthUpdate.zero
      .returns { conn := some r.1 } (some u.1, u.2)

/-- The three uses of `json.Unmarshal` in `AccountInfoWS.Read`, by target:
from the data and the target before the call to the target after the call and
the error. -/
structure AccountInfoJSON where
  msgType : Bytes → MsgType → MsgType × Option Bytes
  account : Bytes → AccountUpdate → AccountUpdate × Option Bytes
  order : Bytes → OrderUpdate → OrderUpdate × Option Bytes

/-- The method `(d *AccountInfoWS) Read() (*AccountUpdate, *OrderUpdate,
error)`. -/
def AccountInfoWS.Read (d : wsWrapper) (json : AccountInfoJSON) :
    Call (Option AccountUpdate × Option OrderUpdate × Option Bytes) :=
  match d.conn with
  | none => .panics
  | some conn =>
    let r := conn.ReadMessage
    match r.2 with
    | .error err => .returns { conn := some r.1 } (none, none, some err)
    | .ok data =>
      let m := json.msgType data MsgType.zero
      match m.2 with
      | some err => .returns { conn := some r.1 } (none, none, some err)
      | none =>
        if m.1.EventType = UpdateTypeOutboundAccountInfo then
          let u := json.account data AccountUpdate.zero
          .returns { conn := some r.1 } (some u.1, none, u.2)
        else
          let u := json.order data OrderUpdate.zero
          .returns { conn := some r.1 } (none, some u.1, u.2)

/-- An operation a caller applies to a depth stream. -/
inductive WsOp where
  | read
  | close
deriving DecidableEq, Repr

/-- What a caller observes of one operation on a depth stream: the update and
the error of a read, or the error of a close. -/
def DepthWS.step (unmarshal : Bytes → DepthUpdate → DepthUpdate × Option Bytes)
    (d : wsWrapper) : WsOp → Call (Option DepthUpdate × Option Bytes)
  | .read => DepthWS.Read d unmarshal
  | .close =>
    match wsWrapper.Close d with
    | .panics => .panics
    | .returns d1 err => .returns d1 (none, err)

/-- A sequence of operations on a depth stream, one after the other: the
observations in order, or `none` as soon as one of them panics. -/
def DepthWS.run (unmarshal : Bytes → DepthUpdate → DepthUpdate × Option Bytes) :
    wsWrapper → List WsOp → Option (List (Option DepthUpdate × Option Bytes))
  | _, [] => some []
  | d, op :: ops =>
    match DepthWS.step unmarshal d op with
    | .panics => none
    | .returns d1 r =>
      match DepthWS.run unmarshal d1 ops with
      | none => none
      | some rs => some (r :: rs)

/-- The event type of the frame that the next `AccountInfoWS.Read` takes from
the connection, when a frame arrives and its envelope decodes. -/
def AccountInfoWS.frameTag (d : wsWrapper) (json : AccountInfoJSON) : Option Bytes :=
  match d.conn with
  | none => none
  | some conn =>
    match conn.ReadMessage.2 with
    | .error _ => none
    | .ok data =>
      match (json.msgType data MsgType.zero).2 with
      | some _ => none
      | none => some (json.msgType data MsgType.zero).1.EventType

/-- The frame that the next read takes from the connection, if one arrives. -/
def wsWrapper.nextFrame (d : wsWrapper) : Option Bytes :=
  match d.conn with
  | none => none
  | some conn =>
    match conn.ReadMessage.2 with
    | .error _ => none
    | .ok data => some data

/-- A stand-in for `encoding/json` on frames whose members are the event type
`tag` and the event time `time` only: every target gets these two fields and
the error is nil. -/
def envelopeJSON (tag : Bytes) (time : Nat) : AccountInfoJSON :=
  { msgType := fun _ m => ({ m with EventType := tag, Time := time }, none),
    account := fun _ u => ({ u with EventType := tag, Time := time }, none),
    order := fun _ u => ({ u with EventType := tag, Time := time }, none) }

/-- An open connection on which the given frames arrive. -/
def openConn (frames : List Bytes) : wsWrapper :=
  { conn := some { closed := false, incoming := frames.map Except.ok } }

/-- A world whose transport fails with the request as its error text (method,
URL and body, blank-separated), so that the request a method issues can be read
off its result; the clock reads 0, the stand-in digest is two fixed bytes. -/
def revealWorld : World :=
  { now := 0, hmacSHA256 := fun _ _ => [171, 1],
    Do := fun req => .error (req.method ++ ascii " " ++ req.url ++ ascii " " ++ req.body.getD []) }

/-! ## Lemmas on `strings` -/

theorem intercalate_cons_cons (sep a b : Bytes) (l : List Bytes) :
    List.intercalate sep (a :: b :: l) = a ++ sep ++ List.intercalate sep (b :: l) := by
  simp [List.intercalate, List.intersperse]

theorem intercalate_singleton (sep a : Bytes) : List.intercalate sep [a] = a := by
  simp [List.intercalate, List.intersperse]

theorem Replace_append (a b : Bytes) (old : UInt8) (new : Bytes) :
    strings.Replace (a ++ b) old new = strings.Replace a old new ++ strings.Replace b old new := by
  simp [strings.Replace]

theorem Replace_of_not_mem (t : Bytes) (old : UInt8) (new : Bytes) (h : ∀ c ∈ t, c ≠ old) :
    strings.Replace t old new = t := by
  induction t with
  | nil => rfl
  | cons c cs ih =>
    have hc : c ≠ old := h c (List.mem_cons_self _ _)
    have hcs : ∀ d ∈ cs, d ≠ old := fun d hd => h d (List.mem_cons_of_mem _ hd)
    have := ih hcs
    simp only [strings.Replace] at this ⊢
    simp [List.flatMap_cons, hc, this]

theorem Replace_renderToken (t : Bool × Bytes) (h : clean t.2) :
    strings.Replace (renderToken t) quoteByte [] = t.2 := by
  have h1 : strings.Replace t.2 quoteByte [] = t.2 :=
    Replace_of_not_mem _ _ _ (fun c hc => (h c hc).1)
  have hq : strings.Replace [quoteByte] quoteByte [] = [] := by simp [strings.Replace]
  unfold renderToken
  split
  · rw [show quoteByte :: t.2 ++ [quoteByte] = [quoteByte] ++ (t.2 ++ [quoteByte]) by simp,
      Replace_append, Replace_append, hq, h1]
    simp
  · exact h1

theorem Replace_intercalate (ts : List (Bool × Bytes)) (h : ∀ t ∈ ts, clean t.2) :
    strings.Replace (List.intercalate [commaByte] (ts.map renderToken)) quoteByte []
      = List.intercalate [commaByte] (ts.map Prod.snd) := by
  induction ts with
  | nil => simp [List.intercalate, strings.Replace]
  | cons a l ih =>
    have ha := Replace_renderToken a (h a (List.mem_cons_self _ _))
    cases l with
    | nil => simpa [intercalate_singleton] using ha
    | cons b l =>
      have ih' := ih (fun t ht => h t (List.mem_cons_of_mem _ ht))
      have hc : strings.Replace [commaByte] quoteByte [] = [commaByte] := by
        simp [strings.Replace, commaByte, quoteByte]
      simp only [List.map_cons, intercalate_cons_cons] at ih' ⊢
      rw [Replace_append, Replace_append, ha, hc, ih']

theorem Trim_wrapped (s : Bytes) (h : ∀ c ∈ s, c ≠ lbracketByte ∧ c ≠ rbracketByte) :
    strings.Trim (lbracketByte :: s ++ [rbracketByte]) (ascii "[]") = s := by
  have hcut : ∀ c : UInt8, c ∈ ascii "[]" ↔ (c = lbracketByte ∨ c = rbracketByte) := by
    intro c
    have : ascii "[]" = [lbracketByte, rbracketByte] := by decide
    simp [this]
  unfold strings.Trim
  have hl : lbracketByte ∈ ascii "[]" := (hcut _).2 (Or.inl rfl)
  have hr : rbracketByte ∈ ascii "[]" := (hcut _).2 (Or.inr rfl)
  have hs : ∀ c ∈ s, ¬ c ∈ ascii "[]" := by
    intro c hc hm
    rcases (hcut c).1 hm with h1 | h1
    · exact (h c hc).1 h1
    · exact (h c hc).2 h1
  cases s with
  | nil => simp [hl, hr, List.rdropWhile]
  | cons a l =>
    have ha : ¬ a ∈ ascii "[]" := hs a (List.mem_cons_self _ _)
    rw [List.cons_append, List.dropWhile_cons_of_pos (by simpa using hl), List.cons_append,
      List.dropWhile_cons_of_neg (by simpa using ha), ← List.cons_append,
      List.rdropWhile_concat_pos _ _ _ (by simpa using hr), List.rdropWhile_eq_self_iff]
    intro hne
    simpa using hs _ (List.getLast_mem hne)

theorem Split_of_not_mem (t : Bytes) (sep : UInt8) (h : ∀ c ∈ t, c ≠ sep) :
    strings.Split t sep = [t] := by
  induction t with
  | nil => rfl
  | cons c cs ih =>
    have hc : c ≠ sep := h c (List.mem_cons_self _ _)
    simp [strings.Split, hc, ih (fun d hd => h d (List.mem_cons_of_mem _ hd))]

theorem Split_append (t r : Bytes) (sep : UInt8) (h : ∀ c ∈ t, c ≠ sep) :
    strings.Split (t ++ sep :: r) sep = t :: strings.Split r sep := by
  induction t with
  | nil => simp [strings.Split]
  | cons c cs ih =>
    have hc : c ≠ sep := h c (List.mem_cons_self _ _)
    simp [strings.Split, hc, ih (fun d hd => h d (List.mem_cons_of_mem _ hd))]

theorem Split_intercalate (ts : List Bytes) (sep : UInt8) (hne : ts ≠ [])
    (h : ∀ t ∈ ts, ∀ c ∈ t, c ≠ sep) :
    strings.Split (List.intercalate [sep] ts) sep = ts := by
  induction ts with
  | nil => exact absurd rfl hne
  | cons a l ih =>
    cases l with
    | nil =>
      rw [intercalate_singleton]
      exact Split_of_not_mem a sep (h a (List.mem_cons_self _ _))
    | cons b l =>
      rw [intercalate_cons_cons, List.append_assoc, List.singleton_append,
        Split_append _ _ _ (h a (List.mem_cons_self _ _)),
        ih (by simp) (fun t ht => h t (List.mem_cons_of_mem _ ht))]

theorem mem_intercalate (sep : Bytes) (ts : List Bytes) (c : UInt8)
    (hc : c ∈ List.intercalate sep ts) : c ∈ sep ∨ ∃ t ∈ ts, c ∈ t := by
  induction ts with
  | nil => simp [List.intercalate] at hc
  | cons a l ih =>
    cases l with
    | nil =>
      rw [intercalate_singleton] at hc
      exact Or.inr ⟨a, List.mem_cons_self _ _, hc⟩
    | cons b l =>
      rw [intercalate_cons_cons] at hc
      rcases List.mem_append.1 hc with h1 | h1
      · rcases List.mem_append.1 h1 with h2 | h2
        · exact Or.inr ⟨a, List.mem_cons_self _ _, h2⟩
        · exact Or.inl h2
      · rcases ih h1 with h2 | ⟨t, ht, h2⟩
        · exact Or.inl h2
        · exact Or.inr ⟨t, List.mem_cons_of_mem _ ht, h2⟩

/-- The decoders recover the tokens of a rendered array. -/
theorem tokensOf_renderArray (ts : List (Bool × Bytes)) (hne : ts ≠ [])
    (h : ∀ t ∈ ts, clean t.2) : tokensOf (renderArray ts) = ts.map Prod.snd := by
  unfold tokensOf renderArray
  have hl : strings.Replace [lbracketByte] quoteByte [] = [lbracketByte] := by
    simp [strings.Replace, lbracketByte, quoteByte]
  have hr : strings.Replace [rbracketByte] quoteByte [] = [rbracketByte] := by
    simp [strings.Replace, rbracketByte, quoteByte]
  have e1 : strings.Replace
      (lbracketByte :: List.intercalate [commaByte] (ts.map renderToken) ++ [rbracketByte])
      quoteByte []
      = lbracketByte :: List.intercalate [commaByte] (ts.map Prod.snd) ++ [rbracketByte] := by
    rw [show lbracketByte :: List.intercalate [commaByte] (ts.map renderToken) ++ [rbracketByte]
        = [lbracketByte] ++ (List.intercalate [commaByte] (ts.map renderToken) ++ [rbracketByte])
        by simp, Replace_append, Replace_append, hl, hr, Replace_intercalate ts h]
    simp
  have e2 : ∀ c ∈ List.intercalate [commaByte] (ts.map Prod.snd),
      c ≠ lbracketByte ∧ c ≠ rbracketByte := by
    intro c hc
    rcases mem_intercalate _ _ _ hc with h1 | ⟨t, ht, h1⟩
    · have : c = commaByte := by simpa using h1
      subst this
      exact ⟨by decide, by decide⟩
    · obtain ⟨p, hp, rfl⟩ := List.mem_map.1 ht
      exact ⟨(h p hp c h1).2.2.1, (h p hp c h1).2.2.2⟩
  simp only [e1, Trim_wrapped _ e2]
  apply Split_intercalate
  · simpa using hne
  · intro t ht c hc
    obtain ⟨p, hp, rfl⟩ := List.mem_map.1 ht
    exact (h p hp c hc).2.1

theorem HasPrefix_append (p t : Bytes) : strings.HasPrefix (p ++ t) p = true := by
  induction p with
  | nil => cases t <;> rfl
  | cons c cs ih => simp [strings.HasPrefix, ih]

theorem HasPrefix_append_left (p t q : Bytes) (h : q.length ≤ p.length) :
    strings.HasPrefix (p ++ t) q = strings.HasPrefix p q := by
  induction q generalizing p with
  | nil => cases p <;> cases t <;> rfl
  | cons d ds ih =>
    cases p with
    | nil => simp at h
    | cons c cs =>
      have : ds.length ≤ cs.length := by simpa using h
      simp [strings.HasPrefix, ih cs this]

theorem HasPrefix_take (s q : Bytes) (n : Nat) (h : strings.HasPrefix s q = true) :
    strings.HasPrefix s (q.take n) = true := by
  induction q generalizing s n with
  | nil => simpa using h
  | cons d ds ih =>
    cases n with
    | zero => cases s <;> rfl
    | succ n =>
      cases s with
      | nil => simp [strings.HasPrefix] at h
      | cons c cs =>
        simp only [strings.HasPrefix, Bool.and_eq_true, decide_eq_true_eq] at h
        simp [strings.HasPrefix, h.1, ih cs n h.2]

/-- A text that starts with `p` does not start with `q` when `p` and `q`
already differ within their first `n` bytes. -/
theorem HasPrefix_append_false (p t q : Bytes) (n : Nat) (hn : n ≤ p.length)
    (h : strings.HasPrefix p (q.take n) = false) : strings.HasPrefix (p ++ t) q = false := by
  by_contra hc
  have h1 := HasPrefix_take (p ++ t) q n (by simpa using hc)
  rw [HasPrefix_append_left p t (q.take n) (by simp; omega)] at h1
  rw [h] at h1
  exact absurd h1 (by decide)

/-! ## Lemmas on `strconv` -/

theorem le_decimalFrom (t : Bytes) (n : Nat) : n ≤ decimalFrom n t := by
  induction t generalizing n with
  | nil => simp [decimalFrom]
  | cons c cs ih =>
    have := ih (n * 10 + (c.toNat - 48))
    simp only [decimalFrom, List.foldl_cons] at this ⊢
    omega

theorem parseUintLoop_digits (maxVal : Nat) (t : Bytes) (n : Nat)
    (hd : ∀ c ∈ t, 48 ≤ c.toNat ∧ c.toNat ≤ 57) (hv : decimalFrom n t ≤ maxVal) :
    strconv.parseUintLoop maxVal t n = some (decimalFrom n t) := by
  induction t generalizing n with
  | nil => simp [strconv.parseUintLoop, decimalFrom]
  | cons c cs ih =>
    have hc := hd c (List.mem_cons_self _ _)
    have hcs : ∀ d ∈ cs, 48 ≤ d.toNat ∧ d.toNat ≤ 57 :=
      fun d h => hd d (List.mem_cons_of_mem _ h)
    have hv' : decimalFrom (n * 10 + (c.toNat - 48)) cs ≤ maxVal := by
      simpa [decimalFrom] using hv
    have hle := le_decimalFrom cs (n * 10 + (c.toNat - 48))
    have hn1 : ¬ (n * 10 + (c.toNat - 48) > maxVal) := by omega
    have := ih (n * 10 + (c.toNat - 48)) hcs hv'
    simp only [strconv.parseUintLoop, hc, and_self, if_true, hn1, if_false, this]
    simp [decimalFrom]

theorem ParseInt_decimal (t : Bytes) (bitSize : Nat) (hb : 1 ≤ bitSize) (hd : isDecimal t)
    (hv : decimalValue t < 2 ^ (bitSize - 1)) :
    strconv.ParseInt t bitSize = some (decimalValue t : Int) := by
  obtain ⟨hne, hdig⟩ := hd
  cases t with
  | nil => exact absurd rfl hne
  | cons c cs =>
    have hc := hdig c (List.mem_cons_self _ _)
    have h43 : c ≠ 43 := by
      intro h; rw [h] at hc; exact absurd hc.1 (by decide)
    have h45 : c ≠ 45 := by
      intro h; rw [h] at hc; exact absurd hc.1 (by decide)
    have hpow : 2 ^ (bitSize - 1) ≤ 2 ^ bitSize - 1 := by
      have : 2 ^ bitSize = 2 * 2 ^ (bitSize - 1) := by
        rw [← pow_succ']; congr 1; omega
      have hpos : 0 < 2 ^ (bitSize - 1) := Nat.pow_pos (by decide)
      omega
    have hu : strconv.ParseUint (c :: cs) bitSize = some (decimalValue (c :: cs)) := by
      simp only [strconv.ParseUint]
      exact parseUintLoop_digits _ _ _ hdig (by unfold decimalValue at hv; omega)
    have hv2 : ¬ (decimalValue (c :: cs) ≥ 2 ^ (bitSize - 1)) := by omega
    simp [strconv.ParseInt, h43, h45, hu, hv2]

theorem uint64OfInt_natCast (n : Nat) (h : n < 2 ^ 64) : uint64OfInt (n : Int) = n := by
  unfold uint64OfInt
  have : ((n : Int) % 2 ^ 64) = (n : Int) := Int.emod_eq_of_lt (by omega) (by exact_mod_cast h)
  rw [this]; simp

/-! ## Lemmas on the error text of `Klines.UnmarshalJSON` -/

theorem klinesErrorIndex_open (t : Bytes) :
    klinesErrorIndex (ascii "failed to parse " ++ ascii "open time" ++ ascii ": " ++ t)
      = some 0 := by
  unfold klinesErrorIndex klinesIntFields
  simp only [List.find?, HasPrefix_append]
  rfl

theorem klinesErrorIndex_close (t : Bytes) :
    klinesErrorIndex (ascii "failed to parse " ++ ascii "close time" ++ ascii ": " ++ t)
      = some 6 := by
  have h1 := HasPrefix_append_false
    (ascii "failed to parse " ++ ascii "close time" ++ ascii ": ") t
    (ascii "failed to parse " ++ ascii "open time" ++ ascii ": ") 17 (by decide) (by decide)
  unfold klinesErrorIndex klinesIntFields
  simp only [List.find?, HasPrefix_append, h1]
  rfl

theorem klinesErrorIndex_trades (t : Bytes) :
    klinesErrorIndex (ascii "failed to parse " ++ ascii "trades" ++ ascii ": " ++ t)
      = some 8 := by
  have h1 := HasPrefix_append_false
    (ascii "failed to parse " ++ ascii "trades" ++ ascii ": ") t
    (ascii "failed to parse " ++ ascii "open time" ++ ascii ": ") 17 (by decide) (by decide)
  have h2 := HasPrefix_append_false
    (ascii "failed to parse " ++ ascii "trades" ++ ascii ": ") t
    (ascii "failed to parse " ++ ascii "close time" ++ ascii ": ") 17 (by decide) (by decide)
  unfold klinesErrorIndex klinesIntFields
  simp only [List.find?, HasPrefix_append, h1, h2]
  rfl

theorem errorText_open (t : Bytes) : ascii "failed to parse open time: " ++ t
    = ascii "failed to parse " ++ ascii "open time" ++ ascii ": " ++ t := by
  rw [show ascii "failed to parse open time: "
    = ascii "failed to parse " ++ ascii "open time" ++ ascii ": " by decide]

theorem errorText_close (t : Bytes) : ascii "failed to parse close time: " ++ t
    = ascii "failed to parse " ++ ascii "close time" ++ ascii ": " ++ t := by
  rw [show ascii "failed to parse close time: "
    = ascii "failed to parse " ++ ascii "close time" ++ ascii ": " by decide]

theorem errorText_trades (t : Bytes) : ascii "failed to parse trades: " ++ t
    = ascii "failed to parse " ++ ascii "trades" ++ ascii ": " ++ t := by
  rw [show ascii "failed to parse trades: "
    = ascii "failed to parse " ++ ascii "trades" ++ ascii ": " by decide]

/-! ## Lemmas on `url.Values` and `hex` -/

theorem bytesLe_refl (a : Bytes) : bytesLe a a = true := by
  induction a with
  | nil => rfl
  | cons c cs ih => simp [bytesLe, ih]

theorem bytesLe_total (a b : Bytes) : bytesLe a b = true ∨ bytesLe b a = true := by
  induction a generalizing b with
  | nil => exact Or.inl rfl
  | cons c cs ih =>
    cases b with
    | nil => exact Or.inr rfl
    | cons d ds =>
      simp only [bytesLe, Bool.or_eq_true, decide_eq_true_eq, Bool.and_eq_true]
      rcases Nat.lt_trichotomy c.toNat d.toNat with h | h | h
      · exact Or.inl (Or.inl h)
      · rcases ih ds with h1 | h1
        · exact Or.inl (Or.inr ⟨h, h1⟩)
        · exact Or.inr (Or.inr ⟨h.symm, h1⟩)
      · exact Or.inr (Or.inl h)

theorem bytesLe_trans (a b c : Bytes) (h1 : bytesLe a b = true) (h2 : bytesLe b c = true) :
    bytesLe a c = true := by
  induction a generalizing b c with
  | nil => rfl
  | cons x xs ih =>
    cases b with
    | nil => simp [bytesLe] at h1
    | cons y ys =>
      cases c with
      | nil => simp [bytesLe] at h2
      | cons z zs =>
        simp only [bytesLe, Bool.or_eq_true, decide_eq_true_eq, Bool.and_eq_true] at h1 h2 ⊢
        rcases h1 with h1 | ⟨e1, h1⟩
        · rcases h2 with h2 | ⟨e2, _⟩
          · exact Or.inl (by omega)
          · exact Or.inl (by omega)
        · rcases h2 with h2 | ⟨e2, h2⟩
          · exact Or.inl (by omega)
          · exact Or.inr ⟨by omega, ih ys zs h1 h2⟩

theorem writePair_ne_nil (buf k x : Bytes) : url.Values.writePair buf k x ≠ [] := by
  simp [url.Values.writePair]

theorem foldl_writePair (ps : List (Bytes × Bytes)) (buf : Bytes) (hb : buf ≠ []) :
    ps.foldl (fun buf p => url.Values.writePair buf p.1 p.2) buf
      = buf ++ ps.flatMap (fun p => ampByte :: url.segment p) := by
  induction ps generalizing buf with
  | nil => simp
  | cons p ps ih =>
    have hlen : buf.length > 0 := List.length_pos.2 hb
    rw [List.foldl_cons, ih _ (writePair_ne_nil _ _ _)]
    simp [url.Values.writePair, hlen, url.segment]

theorem intercalate_eq_flatMap (a : Bytes) (l : List Bytes) (sep : UInt8) :
    List.intercalate [sep] (a :: l) = a ++ l.flatMap (fun s => sep :: s) := by
  induction l generalizing a with
  | nil => simp [intercalate_singleton]
  | cons b l ih => rw [intercalate_cons_cons, ih b]; simp

theorem foldl_writePair_nil (ps : List (Bytes × Bytes)) :
    ps.foldl (fun buf p => url.Values.writePair buf p.1 p.2) []
      = List.intercalate [ampByte] (ps.map url.segment) := by
  cases ps with
  | nil => simp [List.intercalate]
  | cons p ps =>
    rw [List.foldl_cons, foldl_writePair _ _ (writePair_ne_nil _ _ _), List.map_cons,
      intercalate_eq_flatMap]
    simp [url.Values.writePair, url.segment, List.flatMap_map]

theorem foldl_flatMap_pairs (v : url.Values) (keys : List Bytes) (buf : Bytes) :
    keys.foldl (fun buf k =>
        (url.Values.lookup v k).foldl (fun buf value => url.Values.writePair buf k value) buf) buf
      = (keys.flatMap (fun k => (url.Values.lookup v k).map (fun x => (k, x)))).foldl
          (fun buf p => url.Values.writePair buf p.1 p.2) buf := by
  induction keys generalizing buf with
  | nil => simp
  | cons k ks ih =>
    rw [List.foldl_cons, ih, List.flatMap_cons, List.foldl_append, List.foldl_map]

theorem Encode_eq_intercalate (v : url.Values) :
    url.Values.Encode v = List.intercalate [ampByte] ((url.Values.pairs v).map url.segment) := by
  unfold url.Values.Encode url.Values.pairs
  simp only []
  rw [foldl_flatMap_pairs, foldl_writePair_nil]

theorem pairs_sorted (v : url.Values) :
    List.Pairwise (fun p q : Bytes × Bytes => bytesLe p.1 q.1 = true) (url.Values.pairs v) := by
  unfold url.Values.pairs
  have hs := @List.sorted_insertionSort _ (fun a b => bytesLe a b = true) _ ⟨bytesLe_total⟩
    ⟨bytesLe_trans⟩ (v.map Prod.fst)
  rw [List.pairwise_flatMap]
  refine ⟨?_, ?_⟩
  · intro k _
    rw [List.pairwise_map]
    exact List.pairwise_of_forall (fun _ _ => bytesLe_refl k)
  · refine List.Pairwise.imp ?_ hs
    intro a b hab p hp q hq
    obtain ⟨_, _, rfl⟩ := List.mem_map.1 hp
    obtain ⟨_, _, rfl⟩ := List.mem_map.1 hq
    exact hab

theorem Add_keys (v : url.Values) (k x : Bytes) :
    (url.Values.Add v k x).map Prod.fst
      = if k ∈ v.map Prod.fst then v.map Prod.fst else v.map Prod.fst ++ [k] := by
  induction v with
  | nil => simp [url.Values.Add]
  | cons e rest ih =>
    obtain ⟨k1, vs⟩ := e
    by_cases h : k1 = k
    · simp [url.Values.Add, h]
    · have h2 : ¬ k = k1 := fun e => h e.symm
      simp only [url.Values.Add, h, if_false, List.map_cons, ih, List.mem_cons, h2, false_or]
      split <;> simp

theorem Add_nodup (v : url.Values) (k x : Bytes) (h : (v.map Prod.fst).Nodup) :
    ((url.Values.Add v k x).map Prod.fst).Nodup := by
  rw [Add_keys]
  split
  · exact h
  · rename_i hk
    exact List.Nodup.append h (List.nodup_singleton k) (by simpa using hk)

theorem Add_flat (v : url.Values) (k x : Bytes) :
    (url.Values.flat (url.Values.Add v k x)).Perm (url.Values.flat v ++ [(k, x)]) := by
  induction v with
  | nil => simp [url.Values.Add, url.Values.flat]
  | cons e rest ih =>
    obtain ⟨k1, vs⟩ := e
    by_cases h : k1 = k
    · subst h
      simp only [url.Values.Add, if_true, url.Values.flat, List.flatMap_cons, List.map_append,
        List.map_cons, List.map_nil, List.append_assoc]
      exact List.Perm.append_left _ List.perm_append_comm
    · simp only [url.Values.Add, h, if_false, url.Values.flat, List.flatMap_cons,
        List.append_assoc]
      exact List.Perm.append_left _ ih

theorem lookup_of_mem (v : url.Values) (h : (v.map Prod.fst).Nodup) (e : Bytes × List Bytes)
    (he : e ∈ v) : url.Values.lookup v e.1 = e.2 := by
  induction v with
  | nil => simp at he
  | cons d rest ih =>
    obtain ⟨k1, vs⟩ := d
    rw [List.map_cons, List.nodup_cons] at h
    rcases List.mem_cons.1 he with rfl | hm
    · simp [url.Values.lookup]
    · have hne : ¬ k1 = e.1 := by
        intro hk
        have hmem : e.1 ∈ rest.map Prod.fst := List.mem_map_of_mem Prod.fst hm
        rw [← hk] at hmem
        exact h.1 hmem
      simp only [url.Values.lookup, hne, if_false]
      exact ih h.2 hm

theorem pairs_perm_flat (v : url.Values) (h : (v.map Prod.fst).Nodup) :
    (url.Values.pairs v).Perm (url.Values.flat v) := by
  unfold url.Values.pairs url.Values.flat
  refine (List.Perm.flatMap_right _
    (List.perm_insertionSort (fun a b => bytesLe a b = true) (v.map Prod.fst))).trans ?_
  rw [List.flatMap_map]
  have : ∀ e ∈ v, (url.Values.lookup v e.1).map (fun x => (e.1, x))
      = e.2.map (fun x => (e.1, x)) := by
    intro e he
    rw [lookup_of_mem v h e he]
  rw [List.flatMap_congr this]

theorem queryValues_fold (fields : List Field) (v : url.Values)
    (h : (v.map Prod.fst).Nodup) :
    ((fields.foldl
        (fun values f =>
          if f.omitempty && query.isEmptyValue f.value then values
          else url.Values.Add values f.name (query.valueString f.value)) v).map Prod.fst).Nodup ∧
    (url.Values.flat (fields.foldl
        (fun values f =>
          if f.omitempty && query.isEmptyValue f.value then values
          else url.Values.Add values f.name (query.valueString f.value)) v)).Perm
      (url.Values.flat v ++ query.retained fields) := by
  induction fields generalizing v with
  | nil => exact ⟨h, by simp [query.retained]⟩
  | cons f fs ih =>
    rw [List.foldl_cons]
    by_cases hf : (f.omitempty && query.isEmptyValue f.value) = true
    · have hr : query.retained (f :: fs) = query.retained fs := by
        simp [query.retained, List.filter, hf]
      simp only [hf, if_true, hr]
      exact ih v h
    · have hr : query.retained (f :: fs)
          = (f.name, query.valueString f.value) :: query.retained fs := by
        simp [query.retained, List.filter, hf]
      simp only [hf, hr]
      obtain ⟨h1, h2⟩ := ih _ (Add_nodup v f.name (query.valueString f.value) h)
      refine ⟨h1, h2.trans ?_⟩
      have := (Add_flat v f.name (query.valueString f.value)).append_right (query.retained fs)
      simpa using this

theorem hexDigit_lower_ne_amp (n : Nat) :
    hexDigit (ascii "0123456789abcdef") n ≠ ampByte := by
  have h : ascii "0123456789abcdef"
      = [48, 49, 50, 51, 52, 53, 54, 55, 56, 57, 97, 98, 99, 100, 101, 102] := by decide
  unfold hexDigit
  rw [h]
  rcases n with _ | _ | _ | _ | _ | _ | _ | _ | _ | _ | _ | _ | _ | _ | _ | _ | n <;>
    simp [ampByte, List.getD]

theorem EncodeToString_no_amp (src : Bytes) : ∀ x ∈ hex.EncodeToString src, x ≠ ampByte := by
  intro x hx
  simp only [hex.EncodeToString, List.mem_flatMap, List.mem_cons, List.mem_singleton,
    List.not_mem_nil, or_false] at hx
  obtain ⟨c, _, rfl | rfl⟩ := hx
  · exact hexDigit_lower_ne_amp _
  · exact hexDigit_lower_ne_amp _

/-! ## The transport `client.do` -/

/-- C1: with `sign` true the payload of `client.do` is `P`, then `&signature=`,
then the hex encoding of HMAC-SHA256(secret, `P`), where `P` is the urlencoded
parameters, `&timestamp=` with the clock in milliseconds and `&recvWindow=` with
the window. The hex digits contain no ampersand, so the signature is the last
field; it is computed over exactly `P`, and a second clock reading within the
same millisecond gives the identical payload and signature. -/
theorem client_payload_signed (c : client) (w w2 : World) (values : url.Values)
    (hmac : w2.hmacSHA256 = w.hmacSHA256)
    (hts : w2.now.tdiv (1000 * 1000) = w.now.tdiv (1000 * 1000)) :
    client.payload c w values true
      = (url.Values.Encode values ++ ascii "&timestamp=" ++ fmt.int (w.now.tdiv (1000 * 1000))
          ++ ascii "&recvWindow=" ++ fmt.int c.window)
        ++ ascii "&signature="
        ++ hex.EncodeToString (w.hmacSHA256 c.secret
            (url.Values.Encode values ++ ascii "&timestamp="
              ++ fmt.int (w.now.tdiv (1000 * 1000))
              ++ ascii "&recvWindow=" ++ fmt.int c.window)) ∧
    (∀ x ∈ hex.EncodeToString (w.hmacSHA256 c.secret
            (url.Values.Encode values ++ ascii "&timestamp="
              ++ fmt.int (w.now.tdiv (1000 * 1000))
              ++ ascii "&recvWindow=" ++ fmt.int c.window)), x ≠ ampByte) ∧
    client.payload c w2 values true = client.payload c w values true := by
  refine ⟨by simp [client.payload], EncodeToString_no_amp _, ?_⟩
  simp only [client.payload, hmac, hts]

/-- Witness of C1: two clock readings in the same millisecond. -/
theorem client_payload_signed_witness :
    client.payload exampleClient (exampleWorld 1500000000123456789 200 []) [] true
      = (url.Values.Encode [] ++ ascii "&timestamp=" ++ fmt.int 1500000000123
          ++ ascii "&recvWindow=" ++ fmt.int 5000)
        ++ ascii "&signature=" ++ ascii "ab01" ∧
    client.payload exampleClient (exampleWorld 1500000000123999999 200 []) [] true
      = client.payload exampleClient (exampleWorld 1500000000123456789 200 []) [] true :=
  have h := client_payload_signed exampleClient (exampleWorld 1500000000123456789 200 [])
    (exampleWorld 1500000000123999999 200 []) [] rfl (by decide)
  ⟨h.1, h.2.2⟩

/-- C2 (as the code has it): for every options struct `query.Values` succeeds
and the payload of `client.do` is the ampersand-joined `key=value` segments of
exactly the retained parameters, listed in ascending bytewise order of their
keys (the order of `sort.Strings` in `Values.Encode`), whatever the order in
which the struct declares its fields. -/
theorem client_payload_sorted_by_key (c : client) (w : World) (fields : List Field) :
    ∃ values ps, query.Values (.struct fields) = .ok values ∧
      List.Perm ps (query.retained fields) ∧
      List.Pairwise (fun p q : Bytes × Bytes => bytesLe p.1 q.1 = true) ps ∧
      client.payload c w values false = List.intercalate [ampByte] (ps.map url.segment) := by
  obtain ⟨h1, h2⟩ := queryValues_fold fields [] (by simp)
  refine ⟨_, ?ps, rfl, ?a, ?b, ?c⟩
  case c => exact Encode_eq_intercalate _
  case a =>
    refine (pairs_perm_flat _ h1).trans ?_
    simpa [url.Values.flat] using h2
  case b => exact pairs_sorted _

/-- C2 fails as stated: for the `NewOrderOpts` of the order test the payload
starts with `price`, the last declared of its six parameters, and differs from
the serialization in declaration order, which starts with `symbol`. -/
theorem client_payload_not_declaration_order :
    (query.Values (.struct newOrderOptsTest)).toOption.map
        (fun values => client.payload exampleClient (exampleWorld 0 200 []) values false)
      = some (ascii "price=0.1&quantity=1&side=SELL&symbol=NEOBTC&timeInForce=GTC&type=LIMIT") ∧
    declaredOrderPayload newOrderOptsTest
      = ascii "symbol=NEOBTC&side=SELL&type=LIMIT&timeInForce=GTC&quantity=1&price=0.1" ∧
    (query.Values (.struct newOrderOptsTest)).toOption.map
        (fun values => client.payload exampleClient (exampleWorld 0 200 []) values false)
      ≠ some (declaredOrderPayload newOrderOptsTest) := by
  decide

/-- C3 (as the code has it): when the body of the response can be read,
`client.do` returns the raw body and no error exactly for status 200; for every
other status, 201-299 included, it returns the error `status <code>: <body>`. -/
theorem client_do_status (c : client) (w : World) (method endpoint : Bytes) (data : Data)
    (sign stream : Bool) (values : url.Values) (resp : Response) (response : Bytes)
    (hv : query.Values data = .ok values)
    (hdo : w.Do (client.request c w method endpoint values sign stream) = .ok resp)
    (hbody : resp.Body = .ok response) :
    client.do c w method endpoint data sign stream
      = if resp.StatusCode = 200 then .ok response
        else .error (ascii "status " ++ fmt.int resp.StatusCode ++ ascii ": " ++ response) := by
  unfold client.do
  simp only [hv, hdo, hbody]
  by_cases h : resp.StatusCode = 200 <;> simp [h]

/-- Witness of C3 at status 404. -/
theorem client_do_status_witness :
    client.do exampleClient (exampleWorld 0 404 (ascii "gone")) (ascii "GET")
        (ascii "api/v1/ping") .nil false false
      = .error (ascii "status 404: gone") :=
  client_do_status exampleClient (exampleWorld 0 404 (ascii "gone")) (ascii "GET")
    (ascii "api/v1/ping") .nil false false [] ⟨404, .ok (ascii "gone")⟩ (ascii "gone")
    rfl rfl rfl

/-- C3 fails as stated: a response with the 2xx status 201 makes `client.do`
return an error, not the body. -/
theorem client_do_created_is_error :
    client.do exampleClient (exampleWorld 0 201 (ascii "[]")) (ascii "POST")
        (ascii "api/v1/userDataStream") .nil false true
      = .error (ascii "status 201: []") := by
  rfl

/-- C4: the request of `client.do` has the header `X-MBX-APIKEY` exactly when
`sign` or `stream` is true, once and with the API key of the client as value;
in particular the GET of the ticker test, symbol LTCBTC with both flags false,
carries the parameters in the query string and `Accept` as its only header. -/
theorem client_request_apikey (c : client) (w : World) (method endpoint : Bytes)
    (values : url.Values) (sign stream : Bool) :
    (client.request c w method endpoint values sign stream).header.filter
        (fun h => decide (h.1 = ascii "X-MBX-APIKEY"))
      = (if sign || stream then [(ascii "X-MBX-APIKEY", c.apikey)] else []) ∧
    (query.Values (.struct tickerOptsLTCBTC)).toOption.map
        (fun v => client.request c w (ascii "GET") (ascii "api/v1/ticker/24hr") v false false)
      = some { method := ascii "GET",
               url := ascii "https://www.binance.com/api/v1/ticker/24hr?symbol=LTCBTC",
               body := none,
               header := [(ascii "Accept", ascii "application/json")] } := by
  have h1 : ascii "Content-Type" ≠ ascii "X-MBX-APIKEY" := by decide
  have h2 : ascii "Accept" ≠ ascii "X-MBX-APIKEY" := by decide
  refine ⟨?_, rfl⟩
  unfold client.request
  by_cases hm : method = ascii "GET" <;> cases sign <;> cases stream <;>
    simp [hm, h1, h2, List.filter]

/-- C5: for the method GET the request of `client.do` has the payload as query
string after `url/endpoint?`, no body and no Content-Type header; for every
other method the URL is `url/endpoint` alone (it has a question mark only if
the endpoint has one), the body is the payload and the header
`Content-Type: application/x-www-form-urlencoded` is set once. -/
theorem client_request_placement (c : client) (w : World) (method endpoint : Bytes)
    (values : url.Values) (sign stream : Bool) :
    if method = ascii "GET" then
      (client.request c w method endpoint values sign stream).url
          = url ++ ascii "/" ++ endpoint ++ ascii "?" ++ client.payload c w values sign ∧
      (client.request c w method endpoint values sign stream).body = none ∧
      (client.request c w method endpoint values sign stream).header.filter
          (fun h => decide (h.1 = ascii "Content-Type")) = []
    else
      (client.request c w method endpoint values sign stream).url
          = url ++ ascii "/" ++ endpoint ∧
      ((client.request c w method endpoint values sign stream).url.contains questionByte
          = endpoint.contains questionByte) ∧
      (client.request c w method endpoint values sign stream).body
          = some (client.payload c w values sign) ∧
      (client.request c w method endpoint values sign stream).header.filter
          (fun h => decide (h.1 = ascii "Content-Type"))
        = [(ascii "Content-Type", ascii "application/x-www-form-urlencoded")] := by
  have h1 : ascii "X-MBX-APIKEY" ≠ ascii "Content-Type" := by decide
  have h2 : ascii "Accept" ≠ ascii "Content-Type" := by decide
  have h3 : questionByte ∉ url := by decide
  have h4 : questionByte ∉ ascii "/" := by decide
  unfold client.request
  by_cases hm : method = ascii "GET" <;> cases sign <;> cases stream <;>
    simp [hm, h1, h2, h3, h4, List.filter]

/-! ## The positional-array decoders -/

/-- C6: for all strings p and q without double-quote, comma, `[` and `]`,
`DepthElem.UnmarshalJSON` applied to the bytes `["p","q"]` returns nil and
leaves Price = p and Quantity = q, byte for byte. -/
theorem DepthElem_UnmarshalJSON_pair (b : DepthElem) (p q : Bytes)
    (hp : clean p) (hq : clean q) :
    DepthElem.UnmarshalJSON (some b) (ascii "[\"" ++ p ++ ascii "\",\"" ++ q ++ ascii "\"]")
      = .returns (some { Quantity := q, Price := p }) none := by
  have hin : ascii "[\"" ++ p ++ ascii "\",\"" ++ q ++ ascii "\"]"
      = renderArray [(true, p), (true, q)] := by
    have h1 : ascii "[\"" = [lbracketByte, quoteByte] := by decide
    have h2 : ascii "\",\"" = [quoteByte, commaByte, quoteByte] := by decide
    have h3 : ascii "\"]" = [quoteByte, rbracketByte] := by decide
    simp [h1, h2, h3, renderArray, renderToken, intercalate_cons_cons, intercalate_singleton]
  have htok : tokensOf (renderArray [(true, p), (true, q)]) = [p, q] := by
    rw [tokensOf_renderArray _ (by simp)]
    · rfl
    · intro t ht
      simp only [List.mem_cons, List.mem_singleton, List.not_mem_nil, or_false] at ht
      rcases ht with rfl | rfl
      · exact hp
      · exact hq
  have hlen : (renderArray [(true, p), (true, q)]).length ≠ 0 := by simp [renderArray]
  rw [hin]
  simp [DepthElem.UnmarshalJSON, hlen, htok]

/-- Witness of C6 at the order-book pair `["100.00","1.5"]`. -/
theorem DepthElem_UnmarshalJSON_pair_witness :
    DepthElem.UnmarshalJSON (some DepthElem.zero) (ascii "[\"100.00\",\"1.5\"]")
      = .returns (some { Quantity := ascii "1.5", Price := ascii "100.00" }) none :=
  DepthElem_UnmarshalJSON_pair DepthElem.zero (ascii "100.00") (ascii "1.5")
    (by decide) (by decide)

/-- C7: a candle array of at least 11 tokens whose tokens 0 and 6 are decimal
integers below 2^63, whose token 8 is a decimal integer below 2^31 and whose
tokens contain no quote, comma or bracket is decoded by position: the three
integer fields get the values of tokens 0, 6 and 8, the eight string fields get
tokens 1-5, 7, 9 and 10 byte for byte, and tokens beyond index 10 are ignored.
Each token may be quoted or bare. -/
theorem Klines_UnmarshalJSON_positional (b : Klines)
    (q0 q1 q2 q3 q4 q5 q6 q7 q8 q9 q10 : Bool)
    (t0 t1 t2 t3 t4 t5 t6 t7 t8 t9 t10 : Bytes) (rest : List (Bool × Bytes))
    (hclean : ∀ t ∈ [t0, t1, t2, t3, t4, t5, t6, t7, t8, t9, t10] ++ rest.map Prod.snd, clean t)
    (h0 : isDecimal t0 ∧ decimalValue t0 < 2 ^ 63)
    (h6 : isDecimal t6 ∧ decimalValue t6 < 2 ^ 63)
    (h8 : isDecimal t8 ∧ decimalValue t8 < 2 ^ 31) :
    Klines.UnmarshalJSON (some b)
        (renderArray ((q0, t0) :: (q1, t1) :: (q2, t2) :: (q3, t3) :: (q4, t4) :: (q5, t5) ::
          (q6, t6) :: (q7, t7) :: (q8, t8) :: (q9, t9) :: (q10, t10) :: rest))
      = .returns (some
          { OpenTime := decimalValue t0, OpenPrice := t1, High := t2, Low := t3,
            ClosePrice := t4, Volume := t5, CloseTime := decimalValue t6,
            QuoteAssetVolume := t7, Trades := (decimalValue t8 : Int),
            TakerBuyBaseAssetVolume := t9, TakerBuyQuoteAssetVolume := t10 }) none := by
  have htok := tokensOf_renderArray
    ((q0, t0) :: (q1, t1) :: (q2, t2) :: (q3, t3) :: (q4, t4) :: (q5, t5) ::
      (q6, t6) :: (q7, t7) :: (q8, t8) :: (q9, t9) :: (q10, t10) :: rest) (by simp)
    (by
      intro t ht
      apply hclean
      simp only [List.mem_cons, List.mem_append, List.mem_map] at ht ⊢
      rcases ht with rfl | rfl | rfl | rfl | rfl | rfl | rfl | rfl | rfl | rfl | rfl | ht
      all_goals first
        | (left; simp; done)
        | exact Or.inr ⟨t, ht, rfl⟩)
  have hlen : (renderArray ((q0, t0) :: (q1, t1) :: (q2, t2) :: (q3, t3) :: (q4, t4) ::
      (q5, t5) :: (q6, t6) :: (q7, t7) :: (q8, t8) :: (q9, t9) :: (q10, t10) :: rest)).length
      ≠ 0 := by simp [renderArray]
  have p0 := ParseInt_decimal t0 64 (by decide) h0.1 h0.2
  have p6 := ParseInt_decimal t6 64 (by decide) h6.1 h6.2
  have p8 := ParseInt_decimal t8 32 (by decide) h8.1 h8.2
  have u0 := uint64OfInt_natCast (decimalValue t0) (by have := h0.2; omega)
  have u6 := uint64OfInt_natCast (decimalValue t6) (by have := h6.2; omega)
  simp [Klines.UnmarshalJSON, hlen, htok, p0, p6, p8, u0, u6]

/-- Witness of C7 at a twelve-token candle with bare integers and quoted
decimals. -/
theorem Klines_UnmarshalJSON_positional_witness :
    Klines.UnmarshalJSON (some Klines.zero)
        (ascii ("[1499040000000,\"0.01634790\",\"0.80000000\",\"0.01575800\",\"0.01577100\"," ++
          "\"148976.11427815\",1499644799999,\"2434.19055334\",308,\"1756.87402397\"," ++
          "\"28.46694368\",\"17928899.62484339\"]"))
      = .returns (some
          { OpenTime := 1499040000000, OpenPrice := ascii "0.01634790",
            High := ascii "0.80000000", Low := ascii "0.01575800",
            ClosePrice := ascii "0.01577100", Volume := ascii "148976.11427815",
            CloseTime := 1499644799999, QuoteAssetVolume := ascii "2434.19055334",
            Trades := 308, TakerBuyBaseAssetVolume := ascii "1756.87402397",
            TakerBuyQuoteAssetVolume := ascii "28.46694368" }) none :=
  Klines_UnmarshalJSON_positional Klines.zero
    false true true true true true false true false true true
    (ascii "1499040000000") (ascii "0.01634790") (ascii "0.80000000") (ascii "0.01575800")
    (ascii "0.01577100") (ascii "148976.11427815") (ascii "1499644799999")
    (ascii "2434.19055334") (ascii "308") (ascii "1756.87402397") (ascii "28.46694368")
    [(true, ascii "17928899.62484339")]
    (by decide) (by decide) (by decide) (by decide)

/-- C8 (as the code has it): a non-empty input with fewer than 11 tokens makes
`Klines.UnmarshalJSON` return an error and leave the target unchanged; the
error text names the expected minimum 11 and then lists the tokens received,
blank-separated in brackets, not their count. -/
theorem Klines_UnmarshalJSON_short (b : Klines) (data : Bytes) (hne : data ≠ [])
    (hlt : (tokensOf data).length < 11) :
    Klines.UnmarshalJSON (some b) data
      = .returns (some b)
          (some (ascii "at least 11 fields are expected but got: "
            ++ fmt.strings (tokensOf data))) := by
  have hlen : data.length ≠ 0 := by simpa using hne
  simp [Klines.UnmarshalJSON, hlen, hlt]

/-- Witness of C8 at the three-token input `[1,2,3]`. -/
theorem Klines_UnmarshalJSON_short_witness :
    Klines.UnmarshalJSON (some Klines.zero) (ascii "[1,2,3]")
      = .returns (some Klines.zero)
          (some (ascii "at least 11 fields are expected but got: [1 2 3]")) :=
  Klines_UnmarshalJSON_short Klines.zero (ascii "[1,2,3]") (by decide) (by decide)

/-- C8 fails as stated: the inputs `a b` (one token) and `a,b` (two tokens)
produce the same error text, `... but got: [a b]`, so the text does not name
the token count. -/
theorem Klines_short_error_hides_count :
    (tokensOf (ascii "a b")).length = 1 ∧ (tokensOf (ascii "a,b")).length = 2 ∧
    Klines.UnmarshalJSON (some Klines.zero) (ascii "a b")
      = .returns (some Klines.zero)
          (some (ascii "at least 11 fields are expected but got: [a b]")) ∧
    Klines.UnmarshalJSON (some Klines.zero) (ascii "a,b")
      = .returns (some Klines.zero)
          (some (ascii "at least 11 fields are expected but got: [a b]")) := by
  decide

/-- C9: on an input of at least 11 tokens `Klines.UnmarshalJSON` returns no
error exactly when tokens 0, 6 and 8 all parse as base-10 integers (64, 64 and
32 bits); otherwise the error is `failed to parse <field>: <token>` for an
integer field whose token does not parse, so it names the offending position
(open time is index 0, close time 6, trades 8) and gives the raw token. -/
theorem Klines_UnmarshalJSON_integer_fields (b : Klines) (data : Bytes)
    (h11 : 11 ≤ (tokensOf data).length) :
    ∃ b1 err, Klines.UnmarshalJSON (some b) data = .returns (some b1) err ∧
      (err = none ↔ ∀ f ∈ klinesIntFields,
        (strconv.ParseInt ((tokensOf data).getD f.1 []) f.2.1).isSome = true) ∧
      (∀ e, err = some e → ∃ f ∈ klinesIntFields,
        strconv.ParseInt ((tokensOf data).getD f.1 []) f.2.1 = none ∧
        e = ascii "failed to parse " ++ f.2.2 ++ ascii ": " ++ (tokensOf data).getD f.1 [] ∧
        klinesErrorIndex e = some f.1) := by
  have hlen : data.length ≠ 0 := by
    intro h0
    rw [List.length_eq_zero.1 h0] at h11
    exact absurd h11 (by decide)
  unfold Klines.UnmarshalJSON
  simp only [hlen, if_false]
  generalize tokensOf data = tokens at h11 ⊢
  obtain ⟨t0, t1, t2, t3, t4, t5, t6, t7, t8, t9, t10, rest, rfl⟩ :
      ∃ t0 t1 t2 t3 t4 t5 t6 t7 t8 t9 t10 rest,
        tokens = t0 :: t1 :: t2 :: t3 :: t4 :: t5 :: t6 :: t7 :: t8 :: t9 :: t10 :: rest := by
    match tokens, h11 with
    | t0 :: t1 :: t2 :: t3 :: t4 :: t5 :: t6 :: t7 :: t8 :: t9 :: t10 :: rest, _ =>
      exact ⟨t0, t1, t2, t3, t4, t5, t6, t7, t8, t9, t10, rest, rfl⟩
  have hnlt : ¬ (t0 :: t1 :: t2 :: t3 :: t4 :: t5 :: t6 :: t7 :: t8 :: t9 :: t10 :: rest).length
      < 11 := by simp
  simp only [hnlt, if_false, List.getElem?_cons_zero, List.getElem?_cons_succ]
  cases p0 : strconv.ParseInt t0 64 with
  | none =>
    refine ⟨_, _, rfl, by simp [klinesIntFields, p0], ?_⟩
    intro e he
    refine ⟨(0, 64, ascii "open time"), by simp [klinesIntFields], by simpa using p0, ?_, ?_⟩
    · simp at he; rw [← he, errorText_open]; simp
    · simp at he; rw [← he, errorText_open]; exact klinesErrorIndex_open t0
  | some u0 =>
    cases p6 : strconv.ParseInt t6 64 with
    | none =>
      refine ⟨_, _, rfl, by simp [klinesIntFields, p6], ?_⟩
      intro e he
      refine ⟨(6, 64, ascii "close time"), by simp [klinesIntFields], by simpa using p6, ?_, ?_⟩
      · simp at he; rw [← he, errorText_close]; simp
      · simp at he; rw [← he, errorText_close]; exact klinesErrorIndex_close t6
    | some u6 =>
      cases p8 : strconv.ParseInt t8 32 with
      | none =>
        refine ⟨_, _, rfl, by simp [klinesIntFields, p8], ?_⟩
        intro e he
        refine ⟨(8, 32, ascii "trades"), by simp [klinesIntFields], by simpa using p8, ?_, ?_⟩
        · simp at he; rw [← he, errorText_trades]; simp
        · simp at he; rw [← he, errorText_trades]; exact klinesErrorIndex_trades t8
      | some u8 =>
        refine ⟨_, _, rfl, by simp [klinesIntFields, p0, p6, p8], ?_⟩
        intro e he
        simp at he

/-- Witness of C9 at an eleven-token input whose token 6 is not an integer. -/
theorem Klines_UnmarshalJSON_integer_fields_witness :
    ∃ b1 err, Klines.UnmarshalJSON (some Klines.zero) (ascii "[1,a,b,c,d,e,x6,f,3,g,h]")
        = .returns (some b1) err ∧
      (err = none ↔ ∀ f ∈ klinesIntFields,
        (strconv.ParseInt ((tokensOf (ascii "[1,a,b,c,d,e,x6,f,3,g,h]")).getD f.1 [])
          f.2.1).isSome = true) ∧
      (∀ e, err = some e → ∃ f ∈ klinesIntFields,
        strconv.ParseInt ((tokensOf (ascii "[1,a,b,c,d,e,x6,f,3,g,h]")).getD f.1 []) f.2.1
          = none ∧
        e = ascii "failed to parse " ++ f.2.2 ++ ascii ": "
          ++ (tokensOf (ascii "[1,a,b,c,d,e,x6,f,3,g,h]")).getD f.1 [] ∧
        klinesErrorIndex e = some f.1) :=
  Klines_UnmarshalJSON_integer_fields Klines.zero (ascii "[1,a,b,c,d,e,x6,f,3,g,h]")
    (by decide)

/-- C10: decoding a zero-length input returns nil and leaves every field of a
non-nil target as it was, for `DepthElem` and for `Klines`; so a zero target
stays zero. -/
theorem UnmarshalJSON_empty (d : DepthElem) (k : Klines) :
    DepthElem.UnmarshalJSON (some d) [] = .returns (some d) none ∧
    Klines.UnmarshalJSON (some k) [] = .returns (some k) none ∧
    DepthElem.UnmarshalJSON (some DepthElem.zero) [] = .returns (some DepthElem.zero) none ∧
    Klines.UnmarshalJSON (some Klines.zero) [] = .returns (some Klines.zero) none := by
  simp [DepthElem.UnmarshalJSON, Klines.UnmarshalJSON]

/-! ## The stream readers -/

theorem closed_step (unmarshal : Bytes → DepthUpdate → DepthUpdate × Option Bytes) (c : Conn)
    (hc : c.closed = true) (op : WsOp) :
    DepthWS.step unmarshal { conn := some c } op
      = .returns { conn := some c } (none, some errClosed) := by
  cases op <;>
    simp [DepthWS.step, DepthWS.Read, wsWrapper.Close, Conn.ReadMessage, Conn.Close, hc]

theorem closed_run (unmarshal : Bytes → DepthUpdate → DepthUpdate × Option Bytes) (c : Conn)
    (hc : c.closed = true) (ops : List WsOp) :
    DepthWS.run unmarshal { conn := some c } ops
      = some (ops.map (fun _ => (none, some errClosed))) := by
  induction ops with
  | nil => rfl
  | cons op ops ih => simp [DepthWS.run, closed_step unmarshal c hc op, ih]

/-- C11: when `AccountInfoWS.Read` returns, then with a nil error exactly one
of the two updates is non-nil; both are nil only together with an error; a
frame tagged `outboundAccountInfo` gives a non-nil account update and a nil
order update, a frame tagged `executionReport` a nil account update and a
non-nil order update. -/
theorem AccountInfoWS_Read_exactly_one (d d1 : wsWrapper) (json : AccountInfoJSON)
    (a : Option AccountUpdate) (o : Option OrderUpdate) (e : Option Bytes)
    (h : AccountInfoWS.Read d json = .returns d1 (a, o, e)) :
    (e = none → (a.isSome = true ∧ o = none) ∨ (a = none ∧ o.isSome = true)) ∧
    (a = none ∧ o = none → e.isSome = true) ∧
    (AccountInfoWS.frameTag d json = some UpdateTypeOutboundAccountInfo →
      a.isSome = true ∧ o = none) ∧
    (AccountInfoWS.frameTag d json = some UpdateTypeExecutionReport →
      a = none ∧ o.isSome = true) := by
  have hne : UpdateTypeExecutionReport ≠ UpdateTypeOutboundAccountInfo := by decide
  unfold AccountInfoWS.Read at h
  unfold AccountInfoWS.frameTag
  cases hc : d.conn with
  | none => simp [hc] at h
  | some conn =>
    simp only [hc] at h ⊢
    cases hr : conn.ReadMessage.2 with
    | error err =>
      simp only [hr, Call.returns.injEq, Prod.mk.injEq] at h ⊢
      obtain ⟨_, rfl, rfl, rfl⟩ := h
      simp
    | ok data =>
      simp only [hr] at h ⊢
      cases hm : (json.msgType data MsgType.zero).2 with
      | some err =>
        simp only [hm, Call.returns.injEq, Prod.mk.injEq] at h ⊢
        obtain ⟨_, rfl, rfl, rfl⟩ := h
        simp
      | none =>
        simp only [hm] at h ⊢
        by_cases ht : (json.msgType data MsgType.zero).1.EventType
            = UpdateTypeOutboundAccountInfo
        · simp only [ht, if_true, Call.returns.injEq, Prod.mk.injEq] at h ⊢
          obtain ⟨_, rfl, rfl, rfl⟩ := h
          simp [hne.symm]
        · simp only [ht, if_false, Call.returns.injEq, Prod.mk.injEq] at h ⊢
          obtain ⟨_, rfl, rfl, rfl⟩ := h
          simp [ht]

/-- Witness of C11 at an account frame. -/
theorem AccountInfoWS_Read_exactly_one_witness :
    (some { AccountUpdate.zero with EventType := UpdateTypeOutboundAccountInfo, Time := 7 }
        : Option AccountUpdate).isSome = true ∧
      (none : Option OrderUpdate) = none :=
  (AccountInfoWS_Read_exactly_one
    (openConn [ascii "\x7b\"e\":\"outboundAccountInfo\",\"E\":7\x7d"])
    (openConn []) (envelopeJSON UpdateTypeOutboundAccountInfo 7) _ _ none rfl).2.2.1 rfl

/-- C12 (as the code has it): a frame whose tag is anything but
`outboundAccountInfo`, known or not, is decoded as an order update: the account
update is nil, the order update is the target of that decode and the error is
the error of that decode alone; no error names the tag. -/
theorem AccountInfoWS_Read_other_tag (d : wsWrapper) (json : AccountInfoJSON)
    (tag data : Bytes) (hf : wsWrapper.nextFrame d = some data)
    (ht : AccountInfoWS.frameTag d json = some tag)
    (hne : tag ≠ UpdateTypeOutboundAccountInfo) :
    ∃ d1, AccountInfoWS.Read d json
      = .returns d1 (none, some (json.order data OrderUpdate.zero).1,
          (json.order data OrderUpdate.zero).2) := by
  unfold AccountInfoWS.Read
  unfold AccountInfoWS.frameTag at ht
  unfold wsWrapper.nextFrame at hf
  cases hc : d.conn with
  | none => simp [hc] at hf
  | some conn =>
    simp only [hc] at hf ht ⊢
    cases hr : conn.ReadMessage.2 with
    | error err => simp [hr] at hf
    | ok frame =>
      simp only [hr, Option.some.injEq] at hf ht ⊢
      subst hf
      cases hm : (json.msgType frame MsgType.zero).2 with
      | some err => simp [hm] at ht
      | none =>
        simp only [hm, Option.some.injEq] at ht ⊢
        have : ¬ (json.msgType frame MsgType.zero).1.EventType
            = UpdateTypeOutboundAccountInfo := by rw [ht]; exact hne
        simp only [this, if_false]
        exact ⟨_, rfl⟩

/-- Witness of C12 at an order frame. -/
theorem AccountInfoWS_Read_other_tag_witness :
    ∃ d1, AccountInfoWS.Read (openConn [ascii "\x7b\"e\":\"executionReport\",\"E\":7\x7d"])
        (envelopeJSON UpdateTypeExecutionReport 7)
      = .returns d1
          (none, some { OrderUpdate.zero with EventType := UpdateTypeExecutionReport, Time := 7 },
            none) :=
  AccountInfoWS_Read_other_tag (openConn [ascii "\x7b\"e\":\"executionReport\",\"E\":7\x7d"])
    (envelopeJSON UpdateTypeExecutionReport 7) UpdateTypeExecutionReport
    (ascii "\x7b\"e\":\"executionReport\",\"E\":7\x7d") rfl rfl (by decide)

/-- C12 fails as stated: a frame tagged `depthUpdate`, which is neither of the
two tags, comes back as an order update with a nil error. -/
theorem AccountInfoWS_Read_unknown_tag_decoded :
    ascii "depthUpdate" ≠ UpdateTypeOutboundAccountInfo ∧
    ascii "depthUpdate" ≠ UpdateTypeExecutionReport ∧
    ∃ d1, AccountInfoWS.Read (openConn [ascii "\x7b\"e\":\"depthUpdate\",\"E\":7\x7d"])
        (envelopeJSON (ascii "depthUpdate") 7)
      = .returns d1
          (none, some { OrderUpdate.zero with EventType := ascii "depthUpdate", Time := 7 },
            none) :=
  ⟨by decide, by decide, _, rfl⟩

/-- C17: closing a stream whose connection is non-nil returns (nil from an
open connection, the closed error from a closed one) and leaves it closed; from
then on, whatever sequence of reads and closes follows, nothing panics, every
read returns a nil update with the closed error and every close returns the
closed error; a read of the account stream returns two nil updates and the
closed error as well. -/
theorem stream_closed_is_terminal
    (unmarshal : Bytes → DepthUpdate → DepthUpdate × Option Bytes) (json : AccountInfoJSON)
    (c : Conn) (ops : List WsOp) :
    ∃ c1, wsWrapper.Close { conn := some c }
        = .returns { conn := some c1 } (if c.closed then some errClosed else none) ∧
      c1.closed = true ∧
      DepthWS.run unmarshal { conn := some c1 } ops
        = some (ops.map (fun _ => (none, some errClosed))) ∧
      AccountInfoWS.Read { conn := some c1 } json
        = .returns { conn := some c1 } (none, none, some errClosed) := by
  by_cases hc : c.closed = true
  · refine ⟨c, by simp [wsWrapper.Close, Conn.Close, hc], hc, closed_run unmarshal c hc ops, ?_⟩
    simp [AccountInfoWS.Read, Conn.ReadMessage, hc]
  · refine ⟨{ c with closed := true }, by simp [wsWrapper.Close, Conn.Close, hc], rfl,
      closed_run unmarshal _ rfl ops, ?_⟩
    simp [AccountInfoWS.Read, Conn.ReadMessage]

/-! ## Construction and the order endpoints -/

/-- C13: `NewBinanceClient` builds a client with the given key and secret and
the receive window 5000; `NewBinanceClientWindow` returns an error and no
client exactly when `window <= 0`, otherwise the client with exactly the given
key, secret and window and no error; so every client constructed has a positive
window. Neither constructor takes part in any network exchange. -/
theorem NewBinanceClient_window (apikey secret : Bytes) (window : Int) :
    NewBinanceClient apikey secret
      = { client := { apikey := apikey, secret := secret, window := 5000 } } ∧
    0 < (NewBinanceClient apikey secret).client.window ∧
    NewBinanceClientWindow apikey secret window
      = (if window ≤ 0 then (none, some (ascii "window value is invalid"))
         else (some { client := { apikey := apikey, secret := secret, window := window } },
           none)) ∧
    (∀ b, (NewBinanceClientWindow apikey secret window).1 = some b → 0 < b.client.window) := by
  refine ⟨rfl, (by decide : (0 : Int) < 5000), rfl, ?_⟩
  intro b hb
  unfold NewBinanceClientWindow at hb
  by_cases h : window ≤ 0
  · simp [h] at hb
  · simp only [h, if_false, Option.some.injEq] at hb
    rw [← hb]
    exact not_le.1 h

/-- Witness of C13 at the window 1. -/
theorem NewBinanceClient_window_witness :
    0 < ({ client := { apikey := ascii "key", secret := ascii "secret", window := 1 } } :
      BinanceClient).client.window :=
  (NewBinanceClient_window (ascii "key") (ascii "secret") 1).2.2.2 _ rfl

/-- On C14: `CancelOrder` rejects every options struct in which both client
order ids are empty, whatever its order id and whatever the world: the
disjunction on line 195 makes a client order id mandatory, so the call of the
cancel test, symbol and order id only, returns `order id must be set` and no
request is issued. -/
theorem CancelOrder_needs_client_order_id (b : BinanceClient) (w : World)
    (unmarshal : Bytes → CancelOrder → CancelOrder × Option Bytes) (symbol : Bytes)
    (orderID : Int) :
    BinanceClient.CancelOrder b w unmarshal
        (some { Symbol := symbol, OrderID := orderID, OrigClientOrderId := [],
                NewClientOrderId := [] })
      = (none, some (ascii "order id must be set")) := by
  simp [BinanceClient.CancelOrder]

/-- On C15: `QueryOrder` lets through the options struct in which neither the
order id nor the client order id is set (order id 0, client order id empty):
line 179 tests `OrderID < 0`, so the GET is issued with the symbol as its only
parameter. -/
theorem QueryOrder_accepts_unset_ids
    (unmarshal : Bytes → QueryOrder → QueryOrder × Option Bytes) :
    BinanceClient.QueryOrder (NewBinanceClient [] []) revealWorld unmarshal
        (some { Symbol := ascii "NEOBTC", OrderID := 0, OrigClientOrderId := [] })
      = (none, some (ascii ("GET https://www.binance.com/api/v3/order?symbol=NEOBTC" ++
          "&timestamp=0&recvWindow=5000&signature=ab01 "))) := by
  rfl

/-- On C16: `AllOrders` sends a limit of 501 as it is (line 224 only replaces
0), while `Depth` sends 100 for 101 and `Trades` sends 500 for 501. -/
theorem AllOrders_sends_limit_above_500
    (u1 : Bytes → List QueryOrder → List QueryOrder × Option Bytes)
    (u2 : Bytes → Depth → Depth × Option Bytes)
    (u3 : Bytes → Trades → Trades × Option Bytes) :
    BinanceClient.AllOrders (NewBinanceClient [] []) revealWorld u1
        (some { Symbol := ascii "SNMBTC", OrderID := 0, Limit := 501 })
      = (some { Symbol := ascii "SNMBTC", OrderID := 0, Limit := 501 }, none,
         some (ascii ("GET https://www.binance.com/api/v3/allOrders?limit=501&orderId=0" ++
          "&symbol=SNMBTC&timestamp=0&recvWindow=5000&signature=ab01 "))) ∧
    BinanceClient.Depth (NewBinanceClient [] []) revealWorld u2
        (some { Symbol := ascii "SNMBTC", Limit := 101 })
      = (some { Symbol := ascii "SNMBTC", Limit := 100 }, none,
         some (ascii "GET https://www.binance.com/api/v1/depth?limit=100&symbol=SNMBTC ")) ∧
    BinanceClient.Trades (NewBinanceClient [] []) revealWorld u3
        (some { Symbol := ascii "SNMBTC", Limit := 501, FromID := 0 })
      = (some { Symbol := ascii "SNMBTC", Limit := 500, FromID := 0 }, none,
         some (ascii ("GET https://www.binance.com/api/v3/myTrades?fromId=0&limit=500" ++
          "&symbol=SNMBTC&timestamp=0&recvWindow=5000&signature=ab01 "))) := by
  refine ⟨rfl, rfl, rfl⟩

/-! ## Lemmas on decimal text -/

theorem decimalFrom_append (m : Nat) (a b : Bytes) :
    decimalFrom m (a ++ b) = decimalFrom (decimalFrom m a) b := by
  simp [decimalFrom, List.foldl_append]

theorem digitByte_toNat (n : Nat) : (UInt8.ofNat (48 + n % 10)).toNat = 48 + n % 10 := by
  have : n % 10 < 10 := Nat.mod_lt _ (by decide)
  have h256 : UInt8.size = 256 := rfl
  exact UInt8.toNat_ofNat_of_lt (by rw [h256]; omega)

/-- The digits `fmt.natAux` writes: a non-empty digit string in front of the
accumulator that denotes `n`. -/
theorem natAux_digits (fuel : Nat) :
    ∀ (n : Nat) (acc : Bytes), 0 < fuel → n < 10 ^ fuel →
      ∃ ds : Bytes, fmt.natAux fuel n acc = ds ++ acc ∧ ds ≠ [] ∧
        (∀ c ∈ ds, 48 ≤ c.toNat ∧ c.toNat ≤ 57) ∧
        (∀ m, decimalFrom m ds = m * 10 ^ ds.length + n) := by
  induction fuel with
  | zero => intro n acc h; exact absurd h (by decide)
  | succ fuel ih =>
    intro n acc _ hn
    have hd := digitByte_toNat n
    have hmod : n % 10 < 10 := Nat.mod_lt _ (by decide)
    by_cases h0 : n / 10 = 0
    · refine ⟨[UInt8.ofNat (48 + n % 10)], by simp [fmt.natAux, h0], by simp, ?_, ?_⟩
      · intro c hc
        rw [List.mem_singleton] at hc
        rw [hc, hd]
        omega
      · intro m
        simp only [decimalFrom, List.foldl_cons, List.foldl_nil, hd, List.length_singleton,
          pow_one]
        omega
    · have hfuel : 0 < fuel := by
        rcases Nat.eq_zero_or_pos fuel with hz | hp
        · subst hz
          simp at hn
          omega
        · exact hp
      have hlt : n / 10 < 10 ^ fuel := by
        rw [pow_succ] at hn
        omega
      obtain ⟨ds, hds, hne, hdig, hval⟩ :=
        ih (n / 10) (UInt8.ofNat (48 + n % 10) :: acc) hfuel hlt
      refine ⟨ds ++ [UInt8.ofNat (48 + n % 10)], ?_, by simp, ?_, ?_⟩
      · simp [fmt.natAux, h0, hds]
      · intro c hc
        rcases List.mem_append.1 hc with h1 | h1
        · exact hdig c h1
        · rw [List.mem_singleton] at h1
          rw [h1, hd]
          omega
      · intro m
        rw [decimalFrom_append, hval m]
        simp only [decimalFrom, List.foldl_cons, List.foldl_nil, hd, List.length_append,
          List.length_singleton, pow_succ]
        have := Nat.div_add_mod n 10
        have e : (m * 10 ^ ds.length + n / 10) * 10
            = m * (10 ^ ds.length * 10) + n / 10 * 10 := by
          ring
        omega

theorem lt_ten_pow_succ (n : Nat) : n < 10 ^ (n + 1) := by
  have h1 : n < 2 ^ n := Nat.lt_two_pow n
  have h2 : 2 ^ n ≤ 10 ^ n := Nat.pow_le_pow_left (by decide) n
  have h3 : 10 ^ n ≤ 10 ^ (n + 1) := Nat.pow_le_pow_right (by decide) (Nat.le_succ n)
  omega

/-- The text `fmt.nat` writes is a decimal digit string that denotes `n`. -/
theorem nat_digits (n : Nat) : isDecimal (fmt.nat n) ∧ decimalValue (fmt.nat n) = n := by
  obtain ⟨ds, hds, hne, hdig, hval⟩ :=
    natAux_digits (n + 1) n [] (Nat.succ_pos n) (lt_ten_pow_succ n)
  have e : fmt.nat n = ds := by simpa [fmt.nat] using hds
  rw [e]
  refine ⟨⟨hne, hdig⟩, ?_⟩
  have := hval 0
  simpa [decimalValue] using this

theorem clean_of_digits (t : Bytes) (h : ∀ c ∈ t, 48 ≤ c.toNat ∧ c.toNat ≤ 57) : clean t := by
  intro c hc
  have hd := h c hc
  refine ⟨?_, ?_, ?_, ?_⟩ <;>
    · intro e
      rw [e] at hd
      revert hd
      decide

theorem ParseInt_minus_decimal (t : Bytes) (bitSize : Nat) (hb : 1 ≤ bitSize)
    (hd : isDecimal t) (hv : decimalValue t ≤ 2 ^ (bitSize - 1)) :
    strconv.ParseInt (45 :: t) bitSize = some (-(decimalValue t : Int)) := by
  obtain ⟨hne, hdig⟩ := hd
  have hpow : 2 ^ (bitSize - 1) ≤ 2 ^ bitSize - 1 := by
    have : 2 ^ bitSize = 2 * 2 ^ (bitSize - 1) := by
      rw [← pow_succ']; congr 1; omega
    have hpos : 0 < 2 ^ (bitSize - 1) := Nat.pow_pos (by decide)
    omega
  have hu : strconv.ParseUint t bitSize = some (decimalValue t) := by
    cases t with
    | nil => exact absurd rfl hne
    | cons c cs =>
      simp only [strconv.ParseUint]
      exact parseUintLoop_digits _ _ _ hdig (by unfold decimalValue at hv; omega)
  have hv2 : ¬ (decimalValue t > 2 ^ (bitSize - 1)) := by omega
  simp [strconv.ParseInt, hu, hv2]

/-- Parsing the decimal form of a signed 64-bit integer gives the integer. -/
theorem ParseInt_fmt_int (n : Int) (hlo : -(2 ^ 63) ≤ n) (hhi : n < 2 ^ 63) :
    strconv.ParseInt (fmt.int n) 64 = some n := by
  obtain ⟨hdec, hval⟩ := nat_digits n.natAbs
  unfold fmt.int
  by_cases hneg : n < 0
  · simp only [hneg, if_true]
    rw [ParseInt_minus_decimal _ 64 (by decide) hdec (by rw [hval]; omega), hval]
    congr 1
    omega
  · simp only [hneg, if_false]
    rw [ParseInt_decimal _ 64 (by decide) hdec (by rw [hval]; omega), hval]
    congr 1
    omega

theorem clean_fmt_int (n : Int) : clean (fmt.int n) := by
  obtain ⟨⟨_, hdig⟩, _⟩ := nat_digits n.natAbs
  have hc := clean_of_digits _ hdig
  unfold fmt.int
  split
  · intro c hc1
    rcases List.mem_cons.1 hc1 with rfl | h1
    · exact ⟨by decide, by decide, by decide, by decide⟩
    · exact hc c h1
  · exact hc

theorem uint64OfInt_neg (n : Int) (hlo : -(2 ^ 64) ≤ n) (hneg : n < 0) :
    (uint64OfInt n : Int) = n + 2 ^ 64 := by
  unfold uint64OfInt
  have h1 : n % 2 ^ 64 = (n + 2 ^ 64) % 2 ^ 64 := by simp
  have h2 : (n + 2 ^ 64) % 2 ^ 64 = n + 2 ^ 64 :=
    Int.emod_eq_of_lt (by omega) (by omega)
  rw [h1, h2]
  exact Int.toNat_of_nonneg (by omega)

/-! ## The decoders: safety, failure and negative timestamps -/

theorem eleven_tokens (tokens : List Bytes) (h : ¬ tokens.length < 11) :
    ∃ t0 t1 t2 t3 t4 t5 t6 t7 t8 t9 t10 rest,
      tokens = t0 :: t1 :: t2 :: t3 :: t4 :: t5 :: t6 :: t7 :: t8 :: t9 :: t10 :: rest := by
  match tokens, h with
  | t0 :: t1 :: t2 :: t3 :: t4 :: t5 :: t6 :: t7 :: t8 :: t9 :: t10 :: rest, _ =>
    exact ⟨t0, t1, t2, t3, t4, t5, t6, t7, t8, t9, t10, rest, rfl⟩
  | [], h => simp at h
  | [_], h => simp at h
  | [_, _], h => simp at h
  | [_, _, _], h => simp at h
  | [_, _, _, _], h => simp at h
  | [_, _, _, _, _], h => simp at h
  | [_, _, _, _, _, _], h => simp at h
  | [_, _, _, _, _, _, _], h => simp at h
  | [_, _, _, _, _, _, _, _], h => simp at h
  | [_, _, _, _, _, _, _, _, _], h => simp at h
  | [_, _, _, _, _, _, _, _, _, _], h => simp at h

/-- What `Klines.UnmarshalJSON` does on a non-empty input of at least 11
tokens, by the outcome of the three integer parses. -/
theorem Klines_UnmarshalJSON_cases (b : Klines) (data : Bytes) (hne : data ≠ [])
    (t0 t1 t2 t3 t4 t5 t6 t7 t8 t9 t10 : Bytes) (rest : List Bytes)
    (htok : tokensOf data
      = t0 :: t1 :: t2 :: t3 :: t4 :: t5 :: t6 :: t7 :: t8 :: t9 :: t10 :: rest) :
    Klines.UnmarshalJSON (some b) data =
      match strconv.ParseInt t0 64 with
      | none => .returns (some b) (some (ascii "failed to parse open time: " ++ t0))
      | some u0 =>
        match strconv.ParseInt t6 64 with
        | none =>
          .returns (some { b with OpenTime := uint64OfInt u0, OpenPrice := t1, High := t2,
                                  Low := t3, ClosePrice := t4, Volume := t5 })
            (some (ascii "failed to parse close time: " ++ t6))
        | some u6 =>
          match strconv.ParseInt t8 32 with
          | none =>
            .returns (some { b with OpenTime := uint64OfInt u0, OpenPrice := t1, High := t2,
                                    Low := t3, ClosePrice := t4, Volume := t5,
                                    CloseTime := uint64OfInt u6, QuoteAssetVolume := t7 })
              (some (ascii "failed to parse trades: " ++ t8))
          | some u8 =>
            .returns (some { OpenTime := uint64OfInt u0, OpenPrice := t1, High := t2,
                             Low := t3, ClosePrice := t4, Volume := t5,
                             CloseTime := uint64OfInt u6, QuoteAssetVolume := t7, Trades := u8,
                             TakerBuyBaseAssetVolume := t9, TakerBuyQuoteAssetVolume := t10 })
              none := by
  have hlen : data.length ≠ 0 := by simpa using hne
  unfold Klines.UnmarshalJSON
  simp only [hlen, if_false, htok]
  have hnlt : ¬ (t0 :: t1 :: t2 :: t3 :: t4 :: t5 :: t6 :: t7 :: t8 :: t9 :: t10 :: rest).length
      < 11 := by simp
  simp only [hnlt, if_false, List.getElem?_cons_zero, List.getElem?_cons_succ]

/-- C18: on every input and every non-nil target both decoders return, with
nil or with an error, and never panic: no index expression `tokens[i]` is
evaluated out of range; on a nil target both return the error
`UnmarshalJSON on nil pointer`. -/
theorem UnmarshalJSON_never_panics (data : Bytes) (d : DepthElem) (k : Klines) :
    (∃ d1 err, DepthElem.UnmarshalJSON (some d) data = .returns (some d1) err) ∧
    (∃ k1 err, Klines.UnmarshalJSON (some k) data = .returns (some k1) err) ∧
    DepthElem.UnmarshalJSON none data
      = .returns none (some (ascii "UnmarshalJSON on nil pointer")) ∧
    Klines.UnmarshalJSON none data
      = .returns none (some (ascii "UnmarshalJSON on nil pointer")) := by
  refine ⟨?_, ?_, rfl, rfl⟩
  · unfold DepthElem.UnmarshalJSON
    by_cases h0 : data.length = 0
    · simp only [h0, if_true]
      exact ⟨_, _, rfl⟩
    · simp only [h0, if_false]
      by_cases h2 : (tokensOf data).length < 2
      · simp only [h2, if_true]
        exact ⟨_, _, rfl⟩
      · simp only [h2, if_false]
        match htok : tokensOf data, h2 with
        | t0 :: t1 :: rest, _ =>
          simp only [List.getElem?_cons_zero, List.getElem?_cons_succ]
          exact ⟨_, _, rfl⟩
        | [], h2 => simp at h2
        | [_], h2 => simp at h2
  · by_cases h0 : data.length = 0
    · unfold Klines.UnmarshalJSON
      simp only [h0, if_true]
      exact ⟨_, _, rfl⟩
    · by_cases h11 : (tokensOf data).length < 11
      · unfold Klines.UnmarshalJSON
        simp only [h0, if_false, h11, if_true]
        exact ⟨_, _, rfl⟩
      · obtain ⟨t0, t1, t2, t3, t4, t5, t6, t7, t8, t9, t10, rest, htok⟩ :=
          eleven_tokens _ h11
        rw [Klines_UnmarshalJSON_cases k data (by intro h; simp [h] at h0)
          t0 t1 t2 t3 t4 t5 t6 t7 t8 t9 t10 rest htok]
        cases strconv.ParseInt t0 64 with
        | none => exact ⟨_, _, rfl⟩
        | some u0 =>
          cases strconv.ParseInt t6 64 with
          | none => exact ⟨_, _, rfl⟩
          | some u6 =>
            cases strconv.ParseInt t8 32 with
            | none => exact ⟨_, _, rfl⟩
            | some u8 => exact ⟨_, _, rfl⟩

/-- C19: `Klines.UnmarshalJSON` is not atomic on failure. A failure for the
token count or for token 0 leaves the target as it was; with at least 11
tokens, an integer token 0 and a non-integer token 6 it returns the close-time
error with OpenTime, OpenPrice, High, Low, ClosePrice and Volume already
overwritten and the other fields as they were. Every failing
`DepthElem.UnmarshalJSON` leaves its target as it was. -/
theorem Klines_UnmarshalJSON_not_atomic (b : Klines) (d : DepthElem) (data : Bytes)
    (hne : data ≠ []) :
    ((tokensOf data).length < 11 →
      ∃ e, Klines.UnmarshalJSON (some b) data = .returns (some b) (some e)) ∧
    (11 ≤ (tokensOf data).length →
      strconv.ParseInt ((tokensOf data).getD 0 []) 64 = none →
      ∃ e, Klines.UnmarshalJSON (some b) data = .returns (some b) (some e)) ∧
    (∀ u0, 11 ≤ (tokensOf data).length →
      strconv.ParseInt ((tokensOf data).getD 0 []) 64 = some u0 →
      strconv.ParseInt ((tokensOf data).getD 6 []) 64 = none →
      Klines.UnmarshalJSON (some b) data
        = .returns
            (some { b with OpenTime := uint64OfInt u0,
                           OpenPrice := (tokensOf data).getD 1 [],
                           High := (tokensOf data).getD 2 [],
                           Low := (tokensOf data).getD 3 [],
                           ClosePrice := (tokensOf data).getD 4 [],
                           Volume := (tokensOf data).getD 5 [] })
            (some (ascii "failed to parse close time: " ++ (tokensOf data).getD 6 []))) ∧
    (∀ t e, DepthElem.UnmarshalJSON (some d) data = .returns t (some e) → t = some d) := by
  have hlen : data.length ≠ 0 := by simpa using hne
  refine ⟨?_, ?_, ?_, ?_⟩
  · intro hlt
    unfold Klines.UnmarshalJSON
    simp only [hlen, if_false, hlt, if_true]
    exact ⟨_, rfl⟩
  · intro h11 hp
    obtain ⟨t0, t1, t2, t3, t4, t5, t6, t7, t8, t9, t10, rest, htok⟩ :=
      eleven_tokens (tokensOf data) (by omega)
    rw [Klines_UnmarshalJSON_cases b data hne t0 t1 t2 t3 t4 t5 t6 t7 t8 t9 t10 rest htok]
    rw [htok] at hp
    simp only [List.getD_cons_zero] at hp
    rw [hp]
    exact ⟨_, rfl⟩
  · intro u0 h11 hp0 hp6
    obtain ⟨t0, t1, t2, t3, t4, t5, t6, t7, t8, t9, t10, rest, htok⟩ :=
      eleven_tokens (tokensOf data) (by omega)
    rw [Klines_UnmarshalJSON_cases b data hne t0 t1 t2 t3 t4 t5 t6 t7 t8 t9 t10 rest htok]
    rw [htok] at hp0 hp6 ⊢
    simp only [List.getD_cons_zero, List.getD_cons_succ] at hp0 hp6 ⊢
    rw [hp0, hp6]
  · intro t e h
    unfold DepthElem.UnmarshalJSON at h
    simp only [hlen, if_false] at h
    by_cases h2 : (tokensOf data).length < 2
    · simp only [h2, if_true, Outcome.returns.injEq] at h
      exact h.1.symm
    · simp only [h2, if_false] at h
      match htok : tokensOf data, h2 with
      | t0 :: t1 :: rest, _ => simp [htok] at h
      | [], h2 => simp at h2
      | [_], h2 => simp at h2

/-- Witness of C19: token 6 is `x`, so the first six fields of a zero target
are overwritten and the error is returned. -/
theorem Klines_UnmarshalJSON_not_atomic_witness :
    Klines.UnmarshalJSON (some Klines.zero) (ascii "[5,o,h,l,c,v,x,q,3,b,t]")
      = .returns
          (some { Klines.zero with OpenTime := 5, OpenPrice := ascii "o", High := ascii "h",
                                   Low := ascii "l", ClosePrice := ascii "c",
                                   Volume := ascii "v" })
          (some (ascii "failed to parse close time: x")) :=
  (Klines_UnmarshalJSON_not_atomic Klines.zero DepthElem.zero (ascii "[5,o,h,l,c,v,x,q,3,b,t]")
    (by decide)).2.2.1 5 (by decide) (by decide) (by decide)

/-- C20: in a candle array of at least 11 clean tokens whose tokens 0 and 6
are the decimal forms of signed 64-bit integers n0 and n6 (token 8 a decimal
integer below 2^31), `Klines.UnmarshalJSON` returns nil and stores the
conversions `uint64(n0)` and `uint64(n6)` in OpenTime and CloseTime; for a
negative n that is n + 2^64, so the token `-1` gives 18446744073709551615. -/
theorem Klines_UnmarshalJSON_negative_time (b : Klines)
    (q0 q1 q2 q3 q4 q5 q6 q7 q8 q9 q10 : Bool) (n0 n6 : Int)
    (t1 t2 t3 t4 t5 t7 t8 t9 t10 : Bytes) (rest : List (Bool × Bytes))
    (hclean : ∀ t ∈ [t1, t2, t3, t4, t5, t7, t8, t9, t10] ++ rest.map Prod.snd, clean t)
    (h0 : -(2 ^ 63) ≤ n0 ∧ n0 < 2 ^ 63)
    (h6 : -(2 ^ 63) ≤ n6 ∧ n6 < 2 ^ 63)
    (h8 : isDecimal t8 ∧ decimalValue t8 < 2 ^ 31) :
    Klines.UnmarshalJSON (some b)
        (renderArray ((q0, fmt.int n0) :: (q1, t1) :: (q2, t2) :: (q3, t3) :: (q4, t4) ::
          (q5, t5) :: (q6, fmt.int n6) :: (q7, t7) :: (q8, t8) :: (q9, t9) :: (q10, t10) ::
          rest))
      = .returns (some
          { OpenTime := uint64OfInt n0, OpenPrice := t1, High := t2, Low := t3,
            ClosePrice := t4, Volume := t5, CloseTime := uint64OfInt n6,
            QuoteAssetVolume := t7, Trades := (decimalValue t8 : Int),
            TakerBuyBaseAssetVolume := t9, TakerBuyQuoteAssetVolume := t10 }) none ∧
    (n0 < 0 → (uint64OfInt n0 : Int) = n0 + 2 ^ 64) ∧
    (n6 < 0 → (uint64OfInt n6 : Int) = n6 + 2 ^ 64) := by
  refine ⟨?_, fun h => uint64OfInt_neg n0 (by omega) h, fun h => uint64OfInt_neg n6 (by omega) h⟩
  have htok := tokensOf_renderArray
    ((q0, fmt.int n0) :: (q1, t1) :: (q2, t2) :: (q3, t3) :: (q4, t4) :: (q5, t5) ::
      (q6, fmt.int n6) :: (q7, t7) :: (q8, t8) :: (q9, t9) :: (q10, t10) :: rest) (by simp)
    (by
      intro t ht
      simp only [List.mem_cons] at ht
      rcases ht with rfl | rfl | rfl | rfl | rfl | rfl | rfl | rfl | rfl | rfl | rfl | ht
      · exact clean_fmt_int n0
      · exact hclean _ (by simp)
      · exact hclean _ (by simp)
      · exact hclean _ (by simp)
      · exact hclean _ (by simp)
      · exact hclean _ (by simp)
      · exact clean_fmt_int n6
      · exact hclean _ (by simp)
      · exact hclean _ (by simp)
      · exact hclean _ (by simp)
      · exact hclean _ (by simp)
      · exact hclean _ (List.mem_append_right _ (List.mem_map_of_mem Prod.snd ht)))
  have hne : renderArray ((q0, fmt.int n0) :: (q1, t1) :: (q2, t2) :: (q3, t3) :: (q4, t4) ::
      (q5, t5) :: (q6, fmt.int n6) :: (q7, t7) :: (q8, t8) :: (q9, t9) :: (q10, t10) :: rest)
      ≠ [] := by simp [renderArray]
  rw [Klines_UnmarshalJSON_cases b _ hne (fmt.int n0) t1 t2 t3 t4 t5 (fmt.int n6) t7 t8 t9 t10
    (rest.map Prod.snd) (by simpa using htok),
    ParseInt_fmt_int n0 h0.1 h0.2, ParseInt_fmt_int n6 h6.1 h6.2,
    ParseInt_decimal t8 32 (by decide) h8.1 h8.2]

/-- Witness of C20: the tokens `-1` and `-2` at positions 0 and 6. -/
theorem Klines_UnmarshalJSON_negative_time_witness :
    Klines.UnmarshalJSON (some Klines.zero) (ascii "[-1,o,h,l,c,v,-2,q,3,b,t]")
      = .returns (some
          { OpenTime := 18446744073709551615, OpenPrice := ascii "o", High := ascii "h",
            Low := ascii "l", ClosePrice := ascii "c", Volume := ascii "v",
            CloseTime := 18446744073709551614, QuoteAssetVolume := ascii "q", Trades := 3,
            TakerBuyBaseAssetVolume := ascii "b", TakerBuyQuoteAssetVolume := ascii "t" })
          none := by
  have h := (Klines_UnmarshalJSON_negative_time Klines.zero
    false false false false false false false false false false false (-1) (-2)
    (ascii "o") (ascii "h") (ascii "l") (ascii "c") (ascii "v") (ascii "q") (ascii "3")
    (ascii "b") (ascii "t") [] (by decide) (by decide) (by decide) (by decide)).1
  have e1 : renderArray [(false, fmt.int (-1)), (false, ascii "o"), (false, ascii "h"),
      (false, ascii "l"), (false, ascii "c"), (false, ascii "v"), (false, fmt.int (-2)),
      (false, ascii "q"), (false, ascii "3"), (false, ascii "b"), (false, ascii "t")]
      = ascii "[-1,o,h,l,c,v,-2,q,3,b,t]" := by decide
  have e2 : uint64OfInt (-1) = 18446744073709551615 := by decide
  have e3 : uint64OfInt (-2) = 18446744073709551614 := by decide
  have e4 : (decimalValue (ascii "3") : Int) = 3 := by decide
  rw [e1, e2, e3, e4] at h
  exact h

end Binance
